import Mathlib


/-!
Verification of the survey-XML document model of the SB_docs repository.

The Python sources are shallowly embedded: every definition below mirrors a
function or dataclass of `src/survey_elements/...`, translated field by field.
Python `None` becomes `Option.none`, Python exceptions become `Except.error`,
Python sets of strings / enum members are represented by their canonical
(sorted, duplicate-free) list, so that Lean list equality coincides with
Python set equality.  XML `ElementTree` elements are modelled by `XmlTree`:
tag, attribute dictionary (whose values may be `none`, as Python code can and
does store `None` there), optional text, child list.
-/
deriving instance DecidableEq for Except

/-- Comma-split on a character list, mirroring Python `str.split(",")`
(always at least one part, empty parts kept). -/
def splitCommaChars : List Char → List (List Char)
  | [] => [[]]
  | c :: cs =>
    if c = ',' then [] :: splitCommaChars cs
    else
      match splitCommaChars cs with
      | t :: ts => (c :: t) :: ts
      | [] => [[c]]

/-- `str.split(",")` for strings. -/
def splitComma (s : String) : List String :=
  (splitCommaChars s.data).map (fun l => String.mk l)

/-- `",".join(parts)` on character lists. -/
def joinCommaChars : List (List Char) → List Char
  | [] => []
  | [t] => t
  | t :: ts => t ++ ',' :: joinCommaChars ts

/-- `",".join(parts)` for strings. -/
def joinComma (parts : List String) : String :=
  String.mk (joinCommaChars (parts.map String.data))

/-! ### Canonical representation of Python string sets

A Python `set[str]` is unordered; we represent it by its sorted,
duplicate-free list of elements, so Lean list equality is Python set
equality.  `mkStrSet` is the canonicalizer applied wherever the source
builds a set from a list of tokens. -/
/-- Code-point comparison of characters (Python string order is
lexicographic by code point). -/
def charLtb (a b : Char) : Bool := a.toNat < b.toNat

/-- Lexicographic code-point order on character lists. -/
def charListLe : List Char → List Char → Bool
  | [], _ => true
  | _ :: _, [] => false
  | a :: as, b :: bs =>
    if charLtb a b then true
    else if charLtb b a then false
    else charListLe as bs

/-- Python `<=` on strings: lexicographic by code point. -/
def strLe (a b : String) : Prop := charListLe a.data b.data = true

instance : DecidableRel strLe := fun a b => by unfold strLe; infer_instance

/-- Canonical form of a Python string set built from a token list. -/
def mkStrSet (tokens : List String) : List String :=
  List.insertionSort strLe tokens.dedup

/-- A list is a canonical set representation: sorted and duplicate-free. -/
def IsCanonSet (l : List String) : Prop :=
  List.Sorted strLe l ∧ l.Nodup

instance (l : List String) : Decidable (IsCanonSet l) := by
  unfold IsCanonSet List.Sorted
  infer_instance

/-! ### ElementTree model

`XmlTree` mirrors `xml.etree.ElementTree.Element`: a tag, an ordered
attribute dictionary (values may be `none`, since Python code can store
`None` there, as `Block.to_xml_element` does), optional text and a list of
children.  The child list is a mutually inductive `XmlForest` so that all
recursion over trees is structural. -/
mutual
inductive XmlTree where
  | node (tag : String) (attrs : List (String × Option String))
         (text : Option String) (children : XmlForest)
  deriving DecidableEq
inductive XmlForest where
  | nil
  | cons (t : XmlTree) (ts : XmlForest)
  deriving DecidableEq
end

def XmlTree.tag : XmlTree → String
  | .node t _ _ _ => t

def XmlTree.attrs : XmlTree → List (String × Option String)
  | .node _ a _ _ => a

def XmlTree.text : XmlTree → Option String
  | .node _ _ tx _ => tx

def XmlTree.children : XmlTree → XmlForest
  | .node _ _ _ c => c

def XmlForest.toList : XmlForest → List XmlTree
  | .nil => []
  | .cons t ts => t :: ts.toList

def XmlForest.ofList : List XmlTree → XmlForest
  | [] => .nil
  | t :: ts => .cons t (XmlForest.ofList ts)

/-- Embeds `xml_helpers._attr`: exact key lookup first (a stored `None`
is returned as-is, i.e. collapses with the absent default), then, for
names containing a colon, matching on the local part after the colon
against plain or namespace-brace keys; otherwise the default `None`. -/
def pyAttr (el : XmlTree) (name : String) : Option String :=
  match el.attrs.find? (fun p => p.1 == name) with
  | some p => p.2
  | none =>
    if name.data.contains ':' then
      let local_ := String.intercalate ":" ((name.splitOn ":").drop 1)
      match el.attrs.find? (fun p =>
          p.1 == local_ || p.1.endsWith ("\x7d" ++ local_)
            || ((p.1.splitOn "\x7d").getLastD "" == local_)) with
      | some p => p.2
      | none => none
    else none

/-- The default whitespace characters stripped by Python `str.strip()`
(restricted to the ASCII ones, which covers the survey dialect). -/
def isPySpace (c : Char) : Bool :=
  c = ' ' || c = '\t' || c = '\n' || c = '\r' || c = '\x0b' || c = '\x0c'

/-- Embeds Python `str.strip()`. -/
def pyStrip (s : String) : String :=
  String.mk (((s.data.dropWhile isPySpace).reverse.dropWhile isPySpace).reverse)

/-- Lower-cases an ASCII letter, mirroring Python `str.lower()` on the
ASCII range used by this dialect. -/
def lowerChar (c : Char) : Char :=
  if 65 ≤ c.toNat && c.toNat ≤ 90 then Char.ofNat (c.toNat + 32) else c

/-- Embeds Python `str.lower()`. -/
def pyLower (s : String) : String :=
  String.mk (s.data.map lowerChar)

/-- Embeds `xml_helpers._bit`: `"1"` (after strip/lower) is `true`, any
other present value is `false`, absent is `None`. -/
def pyBit (el : XmlTree) (attr_name : String) : Option Bool :=
  match pyAttr el attr_name with
  | none => none
  | some v => some (pyLower (pyStrip v) == "1")

/-- Embeds `xml_helpers._tag_text`: text of the first child with the given
tag, `None` when no such child exists or it has no text. -/
def pyTagText (el : XmlTree) (tag : String) : Option String :=
  match (XmlForest.toList el.children).find? (fun c => c.tag == tag) with
  | some c => c.text
  | none => none

/-! ### Attribute converters (`xml_helpers.bool_bit`, `str_`, `csv`) -/
/-- Embeds `bool_bit`: `True ↦ "1"`, `False ↦ "0"`, `None ↦ None`. -/
def bool_bit : Option Bool → Option String
  | none => none
  | some b => some (if b then "1" else "0")

/-- Embeds `str_` at string-valued fields: identity on present values,
`None` stays `None` (never the text `"None"`). -/
def str_ : Option String → Option String
  | none => none
  | some s => some s

/-- Embeds `csv` on a canonical string set: `None` on the empty set,
otherwise the comma-join of the sorted members. -/
def csv (xs : List String) : Option String :=
  if xs.isEmpty then none else some (joinComma xs)

/-! ### Cell model (`models/questions.py`: `Cell`, `Row`, `Col`, `Choice`)

`Cell` fields not set by any parser keep their `None` / empty defaults and
their converters then emit nothing; the embedding carries exactly the
fields the parsers populate (`label`, `content`, `cond`, `alt`,
`randomize`, `groups`). -/
structure Cell where
  label : Option String
  content : Option String
  cond : Option String
  alt : Option String
  randomize : Option Bool
  groups : List String
  deriving DecidableEq, Repr

/-- Embeds `parse_row` / `parse_col` / `parse_choice` (identical bodies):
fails (Python `AttributeError: NoneType has no attribute split`) when the
`groups` attribute is absent, since the source calls
`_attr(el, "groups").split(",")` with a `None` default. -/
def parse_cell (el : XmlTree) : Except String Cell :=
  match pyAttr el "groups" with
  | none => .error "AttributeError: NoneType object has no attribute split"
  | some g =>
    .ok { label := pyAttr el "label"
          content := el.text
          cond := pyAttr el "cond"
          alt := pyAttr el "alt"
          randomize := pyBit el "randomize"
          groups := mkStrSet (splitComma g) }

/-- One entry of the ordered attribute emission of
`Element.to_xml_element` / `Cell.ATTR_MAP`: the attribute is kept only when
its converter result is neither `None` nor the empty string. -/
def emitAttrs (pairs : List (String × Option String)) :
    List (String × Option String) :=
  pairs.filterMap (fun p =>
    match p.2 with
    | none => none
    | some s => if s = "" then none else some (p.1, some s))

/-- Embeds `Cell.to_xml_element` (via the generic `Element.to_xml_element`
driven by `Cell.ATTR_MAP`), restricted to the parser-populated fields; all
other map entries convert their `None`/empty defaults to `None` and are
suppressed.  Attribute order follows `ATTR_MAP` insertion order. -/
def cellPairs (r : Cell) : List (String × Option String) :=
  [("label", str_ r.label),
   ("randomize", bool_bit r.randomize),
   ("alt", str_ r.alt),
   ("cond", str_ r.cond),
   ("groups", csv r.groups)]

def cellToXml (tag : String) (r : Cell) : XmlTree :=
  .node tag (emitAttrs (cellPairs r)) r.content .nil

/-! ### Defines, inserts and question row slots

`DefineRef` is referenced throughout the sources
(`survey.py`, `modules.py`, `models/questions.py`) but its class body is
not present under `src/`. -/
/-- Modelled from the spec: `DefineRef` is "a placeholder referencing a
`Define` by label, owned by exactly one parent Question until resolved";
`add_parent(q)` binds the back-reference to the owning question once,
during decode, "not mutable afterward".  The parent is identified here by
the owning question's label. -/
structure DefineRef where
  source : String
  parent : Option String
  deriving DecidableEq, Repr

/-- Modelled from the spec: binding a `DefineRef` to its owning question
sets the single back-reference; a ref that is already bound keeps its
original owner ("set during decode, not mutable afterward"). -/
def DefineRef.add_parent (d : DefineRef) (q : String) : DefineRef :=
  match d.parent with
  | none => { d with parent := some q }
  | some _ => d

/-- Embeds `models/logic.Define`: a label and a reusable row list. -/
structure Define where
  label : Option String
  rows : List Cell
  deriving DecidableEq, Repr

/-- Embeds Python `ElementTree.Element.get`: exact-key dictionary lookup
only (no local-name fallback). -/
def etGet (el : XmlTree) (name : String) : Option String :=
  match el.attrs.find? (fun p => p.1 == name) with
  | some p => p.2
  | none => none

/-- Embeds `xml_parser.parse_rows`: walks the children in order; a `row`
child is parsed into a `Row`; an `insert` child is replaced inline by the
rows of the define registered under its `source` attribute in the
`_DEFINES` registry (here the parameter `defs`), and decoding fails when
the label is not registered (the source raises).  No placeholder object is
ever produced. -/
def parse_rows (defs : List (String × List Cell)) :
    XmlForest → Except String (List Cell)
  | .nil => .ok []
  | .cons child rest =>
    if child.tag = "row" then
      match parse_cell child with
      | .error e => .error e
      | .ok r =>
        match parse_rows defs rest with
        | .error e => .error e
        | .ok rs => .ok (r :: rs)
    else if child.tag = "insert" then
      let label := etGet child "source"
      let d := match label with
               | none => none
               | some l => (defs.find? (fun p => p.1 == l)).map (·.2)
      match d with
      | some drows =>
        match parse_rows defs rest with
        | .error e => .error e
        | .ok rs => .ok (drows ++ rs)
      | none => .error "insert source not found in defines"
    else parse_rows defs rest

/-! ### Enum-valued CSV attributes
(`models/enums.Where`, `models/enums.Mode`, `xml_helpers._parse_enum_set`,
`models/questions._csv_to_enum_set`) -/
inductive Where where
  | execute | notdp | none_ | summary | survey | report | data
  deriving DecidableEq, Repr

/-- The wire value of each `Where` member. -/
def Where.value : Where → String
  | .execute => "execute"
  | .notdp => "notdp"
  | .none_ => "none"
  | .summary => "summary"
  | .survey => "survey"
  | .report => "report"
  | .data => "data"

/-- The Python member name of each `Where` member. -/
def Where.pyName : Where → String
  | .execute => "EXECUTE"
  | .notdp => "NOTDP"
  | .none_ => "NONE"
  | .summary => "SUMMARY"
  | .survey => "SURVEY"
  | .report => "REPORT"
  | .data => "DATA"

def whereMembers : List Where :=
  [.execute, .notdp, .none_, .summary, .survey, .report, .data]

/-- `Where(p)` in Python: exact, case-sensitive lookup by enum value. -/
def whereOfValue (p : String) : Option Where :=
  whereMembers.find? (fun m => m.value == p)

def whereLe (a b : Where) : Prop := charListLe a.value.data b.value.data = true

instance : DecidableRel whereLe := fun a b => by unfold whereLe; infer_instance

/-- Canonical (sorted by value, duplicate-free) list representing a Python
set of `Where` members. -/
def mkWhereSet (ms : List Where) : List Where :=
  List.insertionSort whereLe ms.dedup

/-- The token list `_parse_enum_set` (and `_csv_to_enum_set`) iterates:
split on commas, strip each part, keep the non-blank parts. -/
def enumTokens (raw : String) : List String :=
  ((splitComma raw).map pyStrip).filter (fun p => p ≠ "")

/-- The member-collecting loop of `_parse_enum_set`: the first token that
is not an exact enum value raises `ValueError`. -/
def enumLoopWhere (attr_name : String) : List String → Except String (List Where)
  | [] => .ok []
  | p :: ps =>
    match whereOfValue p with
    | none => .error ("Invalid value for " ++ attr_name ++ ": \x27" ++ p ++ "\x27")
    | some m =>
      match enumLoopWhere attr_name ps with
      | .error e => .error e
      | .ok ms => .ok (m :: ms)

/-- Embeds `xml_helpers._parse_enum_set` at the `Where` enum: absent/empty
attribute gives the empty set; otherwise each stripped non-blank token is
canonicalized by exact value match and any unmatched token raises. -/
def parse_enum_set_where (el : XmlTree) (attr_name : String) :
    Except String (List Where) :=
  let raw := (pyAttr el attr_name).getD ""
  if raw = "" then .ok []
  else
    match enumLoopWhere attr_name (enumTokens raw) with
    | .error e => .error e
    | .ok ms => .ok (mkWhereSet ms)

/-- Embeds `questions._csv_to_enum_set` at the `Where` enum: each token is
matched case-sensitively against member name, value or `label` attribute
(absent on these enums); an unmatched token is silently discarded. -/
def csv_to_enum_set_where (csv_text : Option String) : List Where :=
  match csv_text with
  | none => mkWhereSet []
  | some raw =>
    if raw = "" then mkWhereSet []
    else
      mkWhereSet ((enumTokens raw).filterMap (fun p =>
        whereMembers.find? (fun m => m.pyName == p || m.value == p)))

/-- Embeds `models/enums.Mode` (the `mode` attribute of `<style>`). -/
inductive Mode where
  | instead | before | after
  deriving DecidableEq, Repr

/-- The wire value of each `Mode` member. -/
def Mode.value : Mode → String
  | .instead => "instead"
  | .before => "before"
  | .after => "after"

def modeMembers : List Mode := [.instead, .before, .after]

/-- `Mode(p)` in Python: exact, case-sensitive lookup by enum value. -/
def modeOfValue (p : String) : Option Mode :=
  modeMembers.find? (fun m => m.value == p)

def modeLe (a b : Mode) : Prop := charListLe a.value.data b.value.data = true

instance : DecidableRel modeLe := fun a b => by unfold modeLe; infer_instance

/-- Canonical (sorted by value, duplicate-free) list representing a Python
set of `Mode` members. -/
def mkModeSet (ms : List Mode) : List Mode :=
  List.insertionSort modeLe ms.dedup

/-- The member-collecting loop of `_parse_enum_set` at the `Mode` enum. -/
def enumLoopMode (attr_name : String) : List String → Except String (List Mode)
  | [] => .ok []
  | p :: ps =>
    match modeOfValue p with
    | none => .error ("Invalid value for " ++ attr_name ++ ": \x27" ++ p ++ "\x27")
    | some m =>
      match enumLoopMode attr_name ps with
      | .error e => .error e
      | .ok ms => .ok (m :: ms)

/-- Embeds `xml_helpers._parse_enum_set` at the `Mode` enum (used by
`parse_style` for the `mode` attribute). -/
def parse_enum_set_mode (el : XmlTree) (attr_name : String) :
    Except String (List Mode) :=
  let raw := (pyAttr el attr_name).getD ""
  if raw = "" then .ok []
  else
    match enumLoopMode attr_name (enumTokens raw) with
    | .error e => .error e
    | .ok ms => .ok (mkModeSet ms)

/-! ### Integer attribute conversion (`int(...)`, `xml_helpers._int_attr`) -/
/-- Embeds Python `int(s)` on the strings this dialect uses: optional
surrounding whitespace, an optional sign and decimal digits; anything
else raises `ValueError`. -/
def pyInt (raw : String) : Except String Int :=
  let t := (pyStrip raw).data
  let core : List Char × Int :=
    match t with
    | '+' :: rest => (rest, 1)
    | '-' :: rest => (rest, -1)
    | l => (l, 1)
  if core.1 ≠ [] ∧ core.1.all Char.isDigit then
    .ok (core.2 * Int.ofNat
      (core.1.foldl (fun n c => n * 10 + (c.toNat - 48)) 0))
  else
    .error ("ValueError: invalid literal for int() with base 10: \x27"
      ++ raw ++ "\x27")

/-- Embeds `xml_helpers._int_attr`: `el.get(name)` (exact key lookup), an
absent attribute gives the default, a present value goes through
`int(...)`. -/
def int_attr (el : XmlTree) (name : String) (default : Int) :
    Except String Int :=
  match etGet el name with
  | none => .ok default
  | some raw => pyInt raw

/-- `int(_attr(el, name))` as `parse_number` calls it: an absent
attribute becomes `int(None)`, a `TypeError`. -/
def int_of_attr (v : Option String) : Except String Int :=
  match v with
  | none => .error "TypeError: int() argument must be a string, a bytes-like object or a real number, not NoneType"
  | some raw => pyInt raw

/-! ### Leaf payloads of the structural/logic elements
(`models/structural.py`, `models/logic.py`) -/
/-- Embeds `structural.Style` (the decode-populated fields).  `mode` is
parsed from the attribute, but its emission in `to_xml_element` is
commented out. -/
structure Style where
  name : Option String
  label : Option String
  copy : Option String
  cond : Option String
  rows : Option String
  cols : Option String
  mode : List Mode
  after : Option String
  before : Option String
  withx : Option String
  wrap : Option String
  content : String
  deriving DecidableEq, Repr

/-- Embeds `logic.Loopvar`. -/
structure Loopvar where
  name : Option String
  value : Option String
  deriving DecidableEq, Repr

/-- Embeds `logic.Looprow`.  `parse_looprow` never reads a `cond`
attribute, so decoded looprows always carry `cond = None`. -/
structure Looprow where
  label : Option String
  cond : Option String := none
  vars : List Loopvar := []
  deriving DecidableEq, Repr

/-- Embeds `logic.Var`. -/
structure Var where
  name : Option String
  unique : Option String
  values : Option String
  deriving DecidableEq, Repr

/-- Embeds `logic.Exit`. -/
structure Exit where
  cond : Option String
  url : Option String
  content : Option String
  deriving DecidableEq, Repr

/-- Embeds `logic.SampleSource`: `title`, `invalid` and `completed` are
decoded from child *tags* (`_tag_text`), not from attributes. -/
structure SampleSource where
  list : Option String
  title : Option String
  invalid : Option String
  completed : Option String
  vars : List Var
  exits : List Exit
  deriving DecidableEq, Repr

/-! ### The decoded element model

`SElem` covers the whole `_PARSERS` registry of `parsing/xml_parser.py`.
The question tags (`radio`, `checkbox`, `select`, `number`, `float`,
`text`, `textarea`, `autofill`) have registry entries too, but their
builders can never return a value: the `Question` dataclass declares a
mandatory keyword-only field `suspend: Suspend` with no default that no
parser supplies, so every construction raises `TypeError`.  Those
decoder branches produce only errors and `SElem` therefore needs no
constructors for them. -/
mutual
inductive SElem where
  | rowE (r : Cell)
  | colE (r : Cell)
  | choiceE (r : Cell)
  | noteE (content : String)
  | htmlE (label : Option String) (content : Option String)
  | defineE (label : Option String) (rows : List Cell)
  | blockE (label : Option String) (children : SForest)
  | suspendE
  | execE (content : String)
  | resE (label : Option String) (content : Option String)
  | styleE (s : Style)
  | loopE (label : Option String) (children : SForest) (looprows : List Looprow)
  | quotaE (label : Option String) (sheet : Option String)
           (overquota : Option String) (content : Option String)
  | gotoE (target : Option String) (cond : Option String)
  | termE (label : Option String) (cond : Option String) (content : String)
  | logicE (label : Option String) (uses : Option String)
  | samplesourcesE (default : Option String) (sources : List SampleSource)
  | samplesourceE (s : SampleSource)
  | varE (v : Var)
  | exitE (e : Exit)
  | conditionE (label : Option String) (cond : Option String)
               (content : Option String)
  deriving DecidableEq
inductive SForest where
  | nil
  | cons (e : SElem) (es : SForest)
  deriving DecidableEq
end

/-- `parent.findall(tag)`: the direct children with the given tag. -/
def findallTag (el : XmlTree) (tg : String) : List XmlTree :=
  (XmlForest.toList el.children).filter (fun c => c.tag == tg)

/-! ### The leaf builders of the registry (`parsing/xml_parser.py`) -/
/-- Embeds `parse_note`: the tag text is stripped; a missing text is
`None.strip()`, an `AttributeError`. -/
def parse_note (el : XmlTree) : Except String SElem :=
  match el.text with
  | none => .error "AttributeError: NoneType object has no attribute strip"
  | some t => .ok (.noteE (pyStrip t))

/-- Embeds `parse_suspend`: unconditionally `Suspend()`. -/
def parse_suspend (_el : XmlTree) : Except String SElem := .ok .suspendE

/-- Embeds `parse_exec`: the stripped tag text (absent text raises). -/
def parse_exec (el : XmlTree) : Except String SElem :=
  match el.text with
  | none => .error "AttributeError: NoneType object has no attribute strip"
  | some t => .ok (.execE (pyStrip t))

/-- Embeds `parse_html`: label attribute and unstripped tag text. -/
def parse_html (el : XmlTree) : Except String SElem :=
  .ok (.htmlE (pyAttr el "label") el.text)

/-- Embeds `parse_define`: label attribute and the `parse_rows` walk. -/
def parse_define (defs : List (String × List Cell)) (el : XmlTree) :
    Except String SElem :=
  match parse_rows defs el.children with
  | .error e => .error e
  | .ok rs => .ok (.defineE (pyAttr el "label") rs)

/-- Embeds `parse_quota`. -/
def parse_quota (el : XmlTree) : Except String SElem :=
  .ok (.quotaE (pyAttr el "label") (pyAttr el "sheet")
    (pyAttr el "overquota") el.text)

/-- Embeds `parse_goto`. -/
def parse_goto (el : XmlTree) : Except String SElem :=
  .ok (.gotoE (pyAttr el "target") (pyAttr el "cond"))

/-- Embeds `parse_term`: `label`/`cond` attributes plus the stripped tag
text (`None.strip()` raises when the text is absent). -/
def parse_term (el : XmlTree) : Except String SElem :=
  match el.text with
  | none => .error "AttributeError: NoneType object has no attribute strip"
  | some t => .ok (.termE (pyAttr el "label") (pyAttr el "cond") (pyStrip t))

/-- Embeds `parse_res`. -/
def parse_res (el : XmlTree) : Except String SElem :=
  .ok (.resE (pyAttr el "label") el.text)

/-- Embeds `parse_logic`. -/
def parse_logic (el : XmlTree) : Except String SElem :=
  .ok (.logicE (pyAttr el "label") (pyAttr el "uses"))

/-- The `Style` record `parse_style` constructs: the eleven `_attr`
reads of the source, with the already-evaluated `mode` set and stripped
content passed in. -/
def styleOfParts (el : XmlTree) (mode : List Mode) (content : String) : Style :=
  { name := pyAttr el "name", label := pyAttr el "label",
    copy := pyAttr el "copy", cond := pyAttr el "cond",
    rows := pyAttr el "rows", cols := pyAttr el "cols",
    mode := mode, after := pyAttr el "after",
    before := pyAttr el "before", withx := pyAttr el "with",
    wrap := pyAttr el "wrap", content := content }

/-- Embeds `parse_style`: eleven `_attr` reads, the `mode` enum set
(which can raise `ValueError`) and the stripped tag text (which raises
when the text is absent).  The source evaluates `mode` before
`content`, so a `mode` failure surfaces first. -/
def parse_style (el : XmlTree) : Except String SElem :=
  match parse_enum_set_mode el "mode" with
  | .error e => .error e
  | .ok mode =>
    match el.text with
    | none => .error "AttributeError: NoneType object has no attribute strip"
    | some t => .ok (.styleE (styleOfParts el mode (pyStrip t)))

/-- Embeds `parse_loopvar`. -/
def parse_loopvar (el : XmlTree) : Loopvar :=
  { name := pyAttr el "name", value := el.text }

/-- Embeds `parse_looprow`: the label attribute and the `loopvar`
children; no `cond` is ever read. -/
def parse_looprow (el : XmlTree) : Looprow :=
  { label := pyAttr el "label",
    vars := (findallTag el "loopvar").map parse_loopvar }

/-- Embeds `parse_var`. -/
def parse_var (el : XmlTree) : Var :=
  { name := pyAttr el "name", unique := pyAttr el "unique",
    values := pyAttr el "values" }

/-- Embeds `parse_exit`. -/
def parse_exit (el : XmlTree) : Exit :=
  { cond := pyAttr el "cond", url := pyAttr el "url", content := el.text }

/-- Embeds `parse_sample_source`: `list` from an attribute, `title`,
`invalid` and `completed` from child tags, plus the `var` and `exit`
children. -/
def parse_sample_source (el : XmlTree) : SampleSource :=
  { list := pyAttr el "list", title := pyTagText el "title",
    invalid := pyTagText el "invalid", completed := pyTagText el "completed",
    vars := (findallTag el "var").map parse_var,
    exits := (findallTag el "exit").map parse_exit }

/-- Embeds `parse_sample_sources`. -/
def parse_sample_sources (el : XmlTree) : Except String SElem :=
  .ok (.samplesourcesE (pyAttr el "default")
    ((findallTag el "samplesource").map parse_sample_source))

/-- Embeds `parse_condition`. -/
def parse_condition (el : XmlTree) : Except String SElem :=
  .ok (.conditionE (pyAttr el "label") (pyAttr el "cond") el.text)

/-! ### The question builders
(`parsing/xml_parser.py` and the `Question` dataclass) -/
/-- The decode-relevant fields of `RadioQuestion`.  No value of this type
is ever produced by the parser: the `Question` dataclass declares a
mandatory keyword-only field `suspend: Suspend` with no default, and
`parse_radio` does not pass it, so every construction raises
`TypeError`. -/
structure RadioQuestion where
  label : Option String
  title : Option String
  rows : List Cell
  comment : Option String
  randomize : Option Bool
  cols : List Cell
  whereSet : List Where
  deriving DecidableEq, Repr

/-- Embeds `parent.findall(tag)` followed by a cell parse of each hit
(`parse_cols` / `parse_choices`). -/
def parse_cells_by_tag (tg : String) : List XmlTree → Except String (List Cell)
  | [] => .ok []
  | c :: cs =>
    if c.tag = tg then
      match parse_cell c with
      | .error e => .error e
      | .ok r =>
        match parse_cells_by_tag tg cs with
        | .error e => .error e
        | .ok rs => .ok (r :: rs)
    else parse_cells_by_tag tg cs

/-- Embeds `parse_radio`: evaluates the constructor arguments in source
order (`label`, `title`, `rows`, `comment`, `randomize`, `cols`,
`where`) and then fails, because `RadioQuestion(...)` is called without
the mandatory `suspend` keyword argument — the builder's only outcomes
are errors. -/
def parse_radio (defs : List (String × List Cell)) (el : XmlTree) :
    Except String SElem :=
  match parse_rows defs el.children with
  | .error e => .error e
  | .ok _rows =>
    match parse_cells_by_tag "col" (XmlForest.toList el.children) with
    | .error e => .error e
    | .ok _cols =>
      match parse_enum_set_where el "where" with
      | .error e => .error e
      | .ok _wh =>
        .error "TypeError: RadioQuestion missing required keyword-only argument suspend"

/-- Embeds `parse_autofill` (`label`, `title`, `rows`, `where`; then the
`AutoFill` construction raises for the missing `suspend`). -/
def parse_autofill (defs : List (String × List Cell)) (el : XmlTree) :
    Except String SElem :=
  match parse_rows defs el.children with
  | .error e => .error e
  | .ok _rows =>
    match parse_enum_set_where el "where" with
    | .error e => .error e
    | .ok _wh =>
      .error "TypeError: AutoFill missing required keyword-only argument suspend"

/-- Embeds `parse_checkbox`: `atleast` goes through `_int_attr` (which
can raise `ValueError` on a non-integer value) before the row walk;
construction then raises for the missing `suspend`. -/
def parse_checkbox (defs : List (String × List Cell)) (el : XmlTree) :
    Except String SElem :=
  match int_attr el "atleast" 1 with
  | .error e => .error e
  | .ok _al =>
    match parse_rows defs el.children with
    | .error e => .error e
    | .ok _rows =>
      match parse_cells_by_tag "col" (XmlForest.toList el.children) with
      | .error e => .error e
      | .ok _cols =>
        match parse_enum_set_where el "where" with
        | .error e => .error e
        | .ok _wh =>
          .error "TypeError: CheckboxQuestion missing required keyword-only argument suspend"

/-- Embeds `parse_select` (`label`, `title`, `choices`, `comment`,
`randomize`, `where`; then the construction raises). -/
def parse_select (el : XmlTree) : Except String SElem :=
  match parse_cells_by_tag "choice" (XmlForest.toList el.children) with
  | .error e => .error e
  | .ok _choices =>
    match parse_enum_set_where el "where" with
    | .error e => .error e
    | .ok _wh =>
      .error "TypeError: SelectQuestion missing required keyword-only argument suspend"

/-- Embeds `parse_number`: `size` is `int(_attr(el, "size"))`, a
`TypeError` when the attribute is absent, evaluated before the row
walk; construction then raises for the missing `suspend`. -/
def parse_number (defs : List (String × List Cell)) (el : XmlTree) :
    Except String SElem :=
  match int_of_attr (pyAttr el "size") with
  | .error e => .error e
  | .ok _size =>
    match parse_rows defs el.children with
    | .error e => .error e
    | .ok _rows =>
      match parse_cells_by_tag "col" (XmlForest.toList el.children) with
      | .error e => .error e
      | .ok _cols =>
        match parse_enum_set_where el "where" with
        | .error e => .error e
        | .ok _wh =>
          .error "TypeError: NumberQuestion missing required keyword-only argument suspend"

/-- Embeds `parse_float` (`size` via `_int_attr` with default 40). -/
def parse_float (defs : List (String × List Cell)) (el : XmlTree) :
    Except String SElem :=
  match int_attr el "size" 40 with
  | .error e => .error e
  | .ok _size =>
    match parse_rows defs el.children with
    | .error e => .error e
    | .ok _rows =>
      match parse_cells_by_tag "col" (XmlForest.toList el.children) with
      | .error e => .error e
      | .ok _cols =>
        match parse_enum_set_where el "where" with
        | .error e => .error e
        | .ok _wh =>
          .error "TypeError: FloatQuestion missing required keyword-only argument suspend"

/-- Embeds `parse_text` (`size` via `_int_attr` with default 40). -/
def parse_text (defs : List (String × List Cell)) (el : XmlTree) :
    Except String SElem :=
  match int_attr el "size" 40 with
  | .error e => .error e
  | .ok _size =>
    match parse_rows defs el.children with
    | .error e => .error e
    | .ok _rows =>
      match parse_cells_by_tag "col" (XmlForest.toList el.children) with
      | .error e => .error e
      | .ok _cols =>
        match parse_enum_set_where el "where" with
        | .error e => .error e
        | .ok _wh =>
          .error "TypeError: TextQuestion missing required keyword-only argument suspend"

/-- Embeds `parse_textarea` (`size` via `_int_attr` with default 40). -/
def parse_textarea (defs : List (String × List Cell)) (el : XmlTree) :
    Except String SElem :=
  match int_attr el "size" 40 with
  | .error e => .error e
  | .ok _size =>
    match parse_rows defs el.children with
    | .error e => .error e
    | .ok _rows =>
      match parse_cells_by_tag "col" (XmlForest.toList el.children) with
      | .error e => .error e
      | .ok _cols =>
        match parse_enum_set_where el "where" with
        | .error e => .error e
        | .ok _wh =>
          .error "TypeError: TextAreaQuestion missing required keyword-only argument suspend"

/-! ### The registry dispatch (`_PARSERS`, `element_from_xml_element`) -/
/-- The key set of the `_PARSERS` registry. -/
def parserTags : List String :=
  ["row", "col", "choice", "radio", "checkbox", "select", "number", "float",
   "text", "textarea", "autofill", "block", "note", "suspend", "exec", "res",
   "style", "html", "loop", "quota", "goto", "define", "term", "logic",
   "samplesources", "samplesource", "var", "exit", "condition"]

/-- `tag in _PARSERS`. -/
def isParserTag (tg : String) : Bool := parserTags.contains tg

mutual
/-- Embeds `element_from_xml_element`: strict tag dispatch over the whole
`_PARSERS` registry (a dict lookup, so branch order is immaterial); a
tag without a registry entry is a hard error. -/
def decodeE (defs : List (String × List Cell)) : XmlTree → Except String SElem
  | .node tg at_ tx ch =>
    let el : XmlTree := .node tg at_ tx ch
    if el.tag = "row" then
      match parse_cell el with
      | .error e => .error e
      | .ok r => .ok (.rowE r)
    else if el.tag = "col" then
      match parse_cell el with
      | .error e => .error e
      | .ok r => .ok (.colE r)
    else if el.tag = "choice" then
      match parse_cell el with
      | .error e => .error e
      | .ok r => .ok (.choiceE r)
    else if el.tag = "note" then parse_note el
    else if el.tag = "html" then parse_html el
    else if el.tag = "define" then parse_define defs el
    else if el.tag = "block" then
      match decodeF defs ch with
      | .error e => .error e
      | .ok cs => .ok (.blockE (pyAttr el "label") cs)
    else if el.tag = "suspend" then parse_suspend el
    else if el.tag = "exec" then parse_exec el
    else if el.tag = "res" then parse_res el
    else if el.tag = "style" then parse_style el
    else if el.tag = "loop" then
      match decodeLoopF defs ch with
      | .error e => .error e
      | .ok (cs, lrs) => .ok (.loopE (pyAttr el "label") cs lrs)
    else if el.tag = "quota" then parse_quota el
    else if el.tag = "goto" then parse_goto el
    else if el.tag = "term" then parse_term el
    else if el.tag = "logic" then parse_logic el
    else if el.tag = "samplesources" then parse_sample_sources el
    else if el.tag = "samplesource" then
      .ok (.samplesourceE (parse_sample_source el))
    else if el.tag = "var" then .ok (.varE (parse_var el))
    else if el.tag = "exit" then .ok (.exitE (parse_exit el))
    else if el.tag = "condition" then parse_condition el
    else if el.tag = "radio" then parse_radio defs el
    else if el.tag = "checkbox" then parse_checkbox defs el
    else if el.tag = "select" then parse_select el
    else if el.tag = "number" then parse_number defs el
    else if el.tag = "float" then parse_float defs el
    else if el.tag = "text" then parse_text defs el
    else if el.tag = "textarea" then parse_textarea defs el
    else if el.tag = "autofill" then parse_autofill defs el
    else .error "no parser for element"

/-- Embeds the child loop of `parse_block`: a child whose tag is in the
registry is dispatched, any other child raises. -/
def decodeF (defs : List (String × List Cell)) : XmlForest → Except String SForest
  | .nil => .ok .nil
  | .cons t ts =>
    if isParserTag t.tag then
      match decodeE defs t with
      | .error e => .error e
      | .ok e =>
        match decodeF defs ts with
        | .error e => .error e
        | .ok es => .ok (.cons e es)
    else .error "ERROR PARSING BLOCK: element in a block does not have a parser"

/-- Embeds the child loop of `parse_loop`: registry children are
dispatched in order, `looprow` children are collected separately, any
other child raises. -/
def decodeLoopF (defs : List (String × List Cell)) :
    XmlForest → Except String (SForest × List Looprow)
  | .nil => .ok (.nil, [])
  | .cons t ts =>
    if isParserTag t.tag then
      match decodeE defs t with
      | .error e => .error e
      | .ok e =>
        match decodeLoopF defs ts with
        | .error e => .error e
        | .ok (es, lrs) => .ok (.cons e es, lrs)
    else if t.tag = "looprow" then
      match decodeLoopF defs ts with
      | .error e => .error e
      | .ok (es, lrs) => .ok (es, parse_looprow t :: lrs)
    else .error "ERROR PARSING LOOP: element in a loop does not have a parser"
end

/-! ### The encoders (`to_xml_element` methods) -/
/-- `if v not in [None, ""]: attrs[k] = v` — the conditional attribute
insertions of `GoTo`, `Looprow` and `Exit`. -/
def optAttr (k : String) (v : Option String) : List (String × Option String) :=
  match v with
  | none => []
  | some s => if s = "" then [] else [(k, some s)]

/-- Embeds `Loopvar.to_xml_element`. -/
def loopvarToXml (v : Loopvar) : XmlTree :=
  .node "loopvar" [("name", v.name)] v.value .nil

/-- Embeds `Looprow.to_xml_element`. -/
def looprowToXml (lr : Looprow) : XmlTree :=
  .node "looprow" (("label", lr.label) :: optAttr "cond" lr.cond) none
    (XmlForest.ofList (lr.vars.map loopvarToXml))

/-- Embeds `Var.to_xml_element`. -/
def varToXml (v : Var) : XmlTree :=
  .node "var" [("name", v.name), ("unique", v.unique), ("values", v.values)]
    none .nil

/-- Embeds `Exit.to_xml_element`. -/
def exitToXml (e : Exit) : XmlTree :=
  .node "exit" (("cond", e.cond) :: optAttr "url" e.url) e.content .nil

/-- Embeds `SampleSource.to_xml_element`: `title`, `invalid` and
`completed` are emitted as *attributes* (the parser reads them from
child tags), followed by the `var` and `exit` children. -/
def sampleSourceToXml (s : SampleSource) : XmlTree :=
  .node "samplesource"
    [("list", s.list), ("title", s.title), ("invalid", s.invalid),
     ("completed", s.completed)] none
    (XmlForest.ofList (s.vars.map varToXml ++ s.exits.map exitToXml))

/-- The ordered attribute dictionary of `Style.to_xml_element`: the
`mode` entry is commented out in the source, and `content` is emitted
both as an attribute and as the tag text. -/
def stylePairs (s : Style) : List (String × Option String) :=
  [("name", s.name), ("label", s.label), ("copy", s.copy), ("cond", s.cond),
   ("rows", s.rows), ("cols", s.cols), ("after", s.after),
   ("before", s.before), ("with", s.withx), ("wrap", s.wrap),
   ("content", some s.content)]

/-- Appends a child list to a forest. -/
def XmlForest.append : XmlForest → List XmlTree → XmlForest
  | .nil, l => XmlForest.ofList l
  | .cons t ts, l => .cons t (XmlForest.append ts l)

mutual
/-- Embeds the encoders: `Cell.to_xml_element` via `ATTR_MAP`
(`emitAttrs`), the `to_xml_element` methods of the structural and logic
dataclasses otherwise.  `Block`, `Define`, `HTML`, `Res`, `Quota`,
`GoTo` (target), `Logic`, `Loop`, `Looprow` (label), `Loopvar`,
`SampleSources`, `SampleSource`, `Var`, `Exit` (cond), `Terminate` and
`Condition` insert into their attribute dicts unconditionally, storing
`None` field values as-is; `Style` filters `None`/`""` like the
`ATTR_MAP` loop; `Terminate` emits tag `"terminate"` although the
registry key is `"term"`. -/
def encodeE : SElem → XmlTree
  | .rowE r => cellToXml "row" r
  | .colE r => cellToXml "col" r
  | .choiceE r => cellToXml "choice" r
  | .noteE c => .node "note" [] (some c) .nil
  | .htmlE l c => .node "html" [("label", l)] c .nil
  | .defineE l rs =>
      .node "define" [("label", l)] none
        (XmlForest.ofList (rs.map (fun r => cellToXml "row" r)))
  | .blockE l cs => .node "block" [("label", l)] none (encodeF cs)
  | .suspendE => .node "suspend" [] none .nil
  | .execE c => .node "exec" [] (some c) .nil
  | .resE l c => .node "res" [("label", l)] c .nil
  | .styleE s => .node "style" (emitAttrs (stylePairs s)) (some s.content) .nil
  | .loopE l cs lrs =>
      .node "loop" [("label", l)] none
        (XmlForest.append (encodeF cs) (lrs.map looprowToXml))
  | .quotaE l sh oq c =>
      .node "quota" [("label", l), ("sheet", sh), ("overquota", oq)] c .nil
  | .gotoE t c => .node "goto" (("target", t) :: optAttr "cond" c) none .nil
  | .termE l c content =>
      .node "terminate" [("label", l), ("cond", c)] (some content) .nil
  | .logicE l u => .node "logic" [("label", l), ("uses", u)] none .nil
  | .samplesourcesE d srcs =>
      .node "samplesources" [("default", d)] none
        (XmlForest.ofList (srcs.map sampleSourceToXml))
  | .samplesourceE s => sampleSourceToXml s
  | .varE v => varToXml v
  | .exitE e => exitToXml e
  | .conditionE l c content =>
      .node "condition" [("label", l), ("cond", c)] content .nil

def encodeF : SForest → XmlForest
  | .nil => .nil
  | .cons e es => .cons (encodeE e) (encodeF es)
end

/-! ### The byte step (`ET.tostring` followed by re-parsing)

`to_xml_string` serializes with `ET.tostring`: an attribute dict entry
whose value is `None` raises `TypeError` ("cannot serialize None"),
attribute values are written verbatim (an empty string is written as
`k=""` and survives), and the element text is written only when truthy —
an empty text is omitted and re-parses as `None`.  `toWire` is that
serialize/re-parse composition on the tree. -/
def wireAttrs : List (String × Option String) →
    Except String (List (String × Option String))
  | [] => .ok []
  | (_, none) :: _ => .error "TypeError: cannot serialize None (type NoneType)"
  | (k, some v) :: rest =>
    match wireAttrs rest with
    | .error e => .error e
    | .ok l => .ok ((k, some v) :: l)

/-- Element text across serialization: an empty text is not written and
re-parses as `None`. -/
def wireText : Option String → Option String
  | none => none
  | some s => if s = "" then none else some s

mutual
def toWire : XmlTree → Except String XmlTree
  | .node tg at_ tx ch =>
    match wireAttrs at_ with
    | .error e => .error e
    | .ok wa =>
      match toWireF ch with
      | .error e => .error e
      | .ok wch => .ok (.node tg wa (wireText tx) wch)

def toWireF : XmlForest → Except String XmlForest
  | .nil => .ok .nil
  | .cons t ts =>
    match toWire t with
    | .error e => .error e
    | .ok w =>
      match toWireF ts with
      | .error e => .error e
      | .ok ws => .ok (.cons w ws)
end

/-- The round-trip pipeline on a decoded value: encode to an element
tree, serialize and re-parse, decode the result. -/
def reencode (defs : List (String × List Cell)) (e : SElem) :
    Except String SElem :=
  match toWire (encodeE e) with
  | .error err => .error err
  | .ok w => decodeE defs w

/-! ### Conditions under which a decoded value survives the round trip

Every conjunct is forced by an actual failure of the pipeline (see
`C1_roundtrip_counterexample`): the `ATTR_MAP`/`Style` emission loops
drop `None` *and* `""` values while the decoder maps an absent attribute
to `None`, so a decoded `""` does not survive those fields; the
unconditional dict insertions store `None` values that `ET.tostring`
cannot serialize, so those fields must be set; an empty tag text is not
serialized, so `""` contents (and, for the stripping parsers,
whitespace-only ones) do not survive; `Terminate` re-encodes under the
unregistered tag `"terminate"`; `Style` never re-emits `mode`;
`SampleSource` re-encodes its child-tag fields as attributes. -/
def goodCell (r : Cell) : Prop :=
  r.label ≠ some "" ∧ r.cond ≠ some "" ∧ r.alt ≠ some "" ∧
  r.content ≠ some "" ∧
  IsCanonSet r.groups ∧ r.groups ≠ [] ∧ joinComma r.groups ≠ "" ∧
  ∀ t ∈ r.groups, ',' ∉ t.data

instance (r : Cell) : Decidable (goodCell r) := by
  unfold goodCell; infer_instance

def goodLoopvar (v : Loopvar) : Bool :=
  v.name.isSome && v.value != some ""

def goodLooprow (lr : Looprow) : Bool :=
  lr.label.isSome && lr.cond == none && lr.vars.all goodLoopvar

def goodVar (v : Var) : Bool :=
  v.name.isSome && v.unique.isSome && v.values.isSome

def goodExit (e : Exit) : Bool :=
  e.cond.isSome && e.url != some "" && e.content != some ""

def goodStyle (s : Style) : Bool :=
  s.mode.isEmpty && s.name != some "" && s.label != some ""
    && s.copy != some "" && s.cond != some "" && s.rows != some ""
    && s.cols != some "" && s.after != some "" && s.before != some ""
    && s.withx != some "" && s.wrap != some ""
    && (pyStrip s.content == s.content) && s.content != ""

mutual
def goodE : SElem → Bool
  | .rowE r => decide (goodCell r)
  | .colE r => decide (goodCell r)
  | .choiceE r => decide (goodCell r)
  | .noteE c => (pyStrip c == c) && c != ""
  | .htmlE l c => l.isSome && c != some ""
  | .defineE l rs => l.isSome && rs.all (fun r => decide (goodCell r))
  | .blockE l cs => l.isSome && goodF cs
  | .suspendE => true
  | .execE c => (pyStrip c == c) && c != ""
  | .resE l c => l.isSome && c != some ""
  | .styleE s => goodStyle s
  | .loopE l cs lrs => l.isSome && goodF cs && lrs.all goodLooprow
  | .quotaE l sh oq c => l.isSome && sh.isSome && oq.isSome && c != some ""
  | .gotoE t c => t.isSome && c != some ""
  | .termE _ _ _ => false
  | .logicE l u => l.isSome && u.isSome
  | .samplesourcesE d srcs => d.isSome && srcs.isEmpty
  | .samplesourceE _ => false
  | .varE v => goodVar v
  | .exitE e => goodExit e
  | .conditionE l c content => l.isSome && c.isSome && content != some ""
def goodF : SForest → Bool
  | .nil => true
  | .cons e es => goodE e && goodF es
end

/-! ### Question row slots, binding and insert resolution
(`models/questions.Question`, `survey.Survey.resolve_inserts`) -/
/-- One entry of a `Question.rows` tuple at runtime: a parsed `Row`
object, a `DefineRef` placeholder, or — after `resolve_inserts` — a whole
row *tuple* appended as a single entry. -/
inductive RowEntry where
  | cell (r : Cell)
  | ref (d : DefineRef)
  | group (rs : List Cell)
  deriving DecidableEq, Repr

/-- Embeds the `Question.define_refs` property: the `DefineRef` instances
among the row entries, in order. -/
def define_refs (rows : List RowEntry) : List DefineRef :=
  rows.filterMap (fun e =>
    match e with
    | .ref d => some d
    | _ => none)

/-- Embeds `Question._bind_define_refs` (run by `__post_init__`): every
`DefineRef` in the rows gets the back-reference to the owning question. -/
def bind_define_refs (qlabel : String) (rows : List RowEntry) : List RowEntry :=
  rows.map (fun e =>
    match e with
    | .ref d => .ref (d.add_parent qlabel)
    | other => other)

/-- The mutable per-question state `resolve_inserts` works on. -/
structure QState where
  label : String
  rows : List RowEntry
  historic_define_refs : Option (List DefineRef)
  deriving DecidableEq, Repr

/-- Embeds `Question` construction (`__post_init__` calls
`_bind_define_refs`; `historic_define_refs` defaults to `None`). -/
def mkQuestion (label : String) (rows : List RowEntry) : QState :=
  { label := label, rows := bind_define_refs label rows,
    historic_define_refs := none }

/-- Embeds `Survey.ROW_PREFIXES` (= `Module.ROW_PREFIXES`): the closed
table of editable define labels and their row-label prefixes. -/
def ROW_PREFIXES : List (String × String) :=
  [("FREQUENCY", "fr"), ("FREQUENCY_SHORT", "frs"), ("CONSIDERATION", "con"),
   ("RECENCY", "rec"), ("CATEGORIES", "cat"), ("BRANDS", "br"),
   ("PRIORITY_LEVEL_LISTS", "pll"), ("PERCEPTIONS", "per"),
   ("MOTIVATIONS", "mot"), ("CATEGORY_ATTITUDES", "ca"),
   ("LIFE_ATTITUDES", "la"), ("LQ_CHEM", "lqc"), ("LQ_EMOT", "lqe"),
   ("LQ_RATIONAL", "lqr"), ("LQ_COMPAT", "lqco"), ("MESSAGES", "msg"),
   ("STREAMINGBRANDS", "stb"), ("SOCIALMEDIA", "sm"), ("NEWSPAPERS", "np"),
   ("MAGAZINES", "mag"), ("AUDIOSTREAMINGBRANDS", "asb"),
   ("RADIOSTATIONS", "rs"), ("WEBSITES", "web"), ("SHOWS", "sh"),
   ("CHANNELS", "ch"), ("MEDIA", "med"), ("INTERESTS", "int"),
   ("SPORTS", "spo")]

/-- `label in self.ROW_PREFIXES` (dict key membership). -/
def isEditableLabel (label : String) : Bool :=
  ROW_PREFIXES.any (fun p => p.1 == label)

/-- The inner loop of `Survey.resolve_inserts`: for each `DefineRef` whose
source is an editable label, look it up in `user_defines`; a missing entry
raises; each hit contributes the whole row tuple of the define. -/
def collectInsertRows (user_defines : List (String × Define)) :
    List DefineRef → Except String (List (List Cell))
  | [] => .ok []
  | d :: ds =>
    if isEditableLabel d.source then
      match (user_defines.find? (fun p => p.1 == d.source)).map (·.2) with
      | none => .error ("Define " ++ d.source ++ " was not created")
      | some df =>
        match collectInsertRows user_defines ds with
        | .error e => .error e
        | .ok rest => .ok (df.rows :: rest)
    else collectInsertRows user_defines ds

/-- Embeds the per-question body of `Survey.resolve_inserts`: when at
least one editable ref resolves, the historic `DefineRef` tuple is stored
(only if currently falsy, i.e. `None` or empty) and `rows` is replaced by
`tuple(insert_rows)` — a tuple whose entries are the row *tuples* of the
resolved defines. -/
def resolveInsertsQ (user_defines : List (String × Define)) (q : QState) :
    Except String QState :=
  match collectInsertRows user_defines (define_refs q.rows) with
  | .error e => .error e
  | .ok irs =>
    if irs.isEmpty then .ok q
    else
      .ok { q with
        historic_define_refs :=
          match q.historic_define_refs with
          | none => some (define_refs q.rows)
          | some [] => some (define_refs q.rows)
          | some l => some l,
        rows := irs.map RowEntry.group }

/-! ### Module reordering (`survey.Survey.reorder`) -/
/-- A survey module: `project_code` is the provenance identifier used by
every module operation. -/
structure SurvModule where
  project_code : String
  title : String
  deriving DecidableEq, Repr

/-- Python dict insertion: replacing an existing key keeps its position,
a fresh key appends. -/
def dictInsert (d : List (String × SurvModule)) (k : String) (v : SurvModule) :
    List (String × SurvModule) :=
  if d.any (fun p => p.1 == k) then
    d.map (fun p => if p.1 == k then (k, v) else p)
  else d ++ [(k, v)]

/-- `{m.project_code: m for m in self.modules}`. -/
def code_to_mod (modules : List SurvModule) : List (String × SurvModule) :=
  modules.foldl (fun d m => dictInsert d m.project_code m) []

/-- `dict.pop(code)`: the mapped module and the dictionary without it,
`none` when the key is missing. -/
def dictPop (d : List (String × SurvModule)) (k : String) :
    Option (SurvModule × List (String × SurvModule)) :=
  match d.find? (fun p => p.1 == k) with
  | none => none
  | some p => some (p.2, d.filter (fun q => q.1 != k))

/-- The `for code in project_code_order` loop of `reorder`: pops each code
from the dictionary, appending the module; a missing key raises. -/
def reorderLoop : List String → List (String × SurvModule) →
    Except String (List SurvModule × List (String × SurvModule))
  | [], d => .ok ([], d)
  | c :: cs, d =>
    match dictPop d c with
    | none => .error ("Unknown project_code in reorder: \x27" ++ c ++ "\x27")
    | some (m, rest) =>
      match reorderLoop cs rest with
      | .error e => .error e
      | .ok (nl, rem) => .ok (m :: nl, rem)

/-- Embeds `Survey.reorder`: a one-element order or a one-module survey
returns immediately with no validation and no change; otherwise each code
is popped (unknown code raises), any remaining module raises, and only
then is the module list replaced. -/
def reorder (modules : List SurvModule) (project_code_order : List String) :
    Except String (List SurvModule) :=
  if project_code_order.length == 1 || modules.length == 1 then .ok modules
  else
    match reorderLoop project_code_order (code_to_mod modules) with
    | .error e => .error e
    | .ok (nl, rem) =>
      if rem.isEmpty then .ok nl
      else .error ("Reorder is missing module(s): "
        ++ String.intercalate ", " (rem.map (·.1)))

/-! ### Editable templates (`utils/editables.py`) -/
/-- Embeds `EditableText`: an editable token with an optional validator
callback and an `error` slot. -/
structure EditableText where
  name : String
  value : String := ""
  context : Option String := none
  validator : Option (String → Bool) := none
  error : Option String := none

/-- Embeds `EditableText.set`: a present validator that rejects the new
value records an error message and leaves `value` unchanged (nothing is
raised); otherwise the value is stored and the error slot cleared. -/
def EditableText.set (t : EditableText) (new_value : String) : EditableText :=
  match t.validator with
  | some f =>
    if ¬ f new_value then
      { t with error := some ("Invalid value for \x27" ++ t.name ++ "\x27.") }
    else { t with value := new_value, error := none }
  | none => { t with value := new_value, error := none }

/-- A token of an `EditableTemplate`: `FixedText` or `EditableText`. -/
inductive Token where
  | fixed (text : String)
  | editable (t : EditableText)

/-- Leftmost occurrence of `pat`: the characters before it and the
characters after it, or `none` when `pat` does not occur. -/
def findPat (pat : List Char) : List Char → Option (List Char × List Char)
  | [] => if pat.isEmpty then some ([], []) else none
  | c :: cs =>
    if pat.isPrefixOf (c :: cs) then some ([], (c :: cs).drop pat.length)
    else
      match findPat pat cs with
      | some (b, a) => some (c :: b, a)
      | none => none

/-- The alternating parts produced by
`re.split(re.escape(start) + "(.*?)" + re.escape(end), raw)`: `inl` parts
are the even-index fixed spans, `inr` parts the lazily captured groups.
A start with no following end means no further match.  Fuel bounds the
recursion; `raw.length + 1` always suffices. -/
def splitParts (st en : List Char) : Nat → List Char → List (String ⊕ String)
  | 0, s => [.inl (String.mk s)]
  | fuel + 1, s =>
    match findPat st s with
    | none => [.inl (String.mk s)]
    | some (before, rest1) =>
      match findPat en rest1 with
      | none => [.inl (String.mk s)]
      | some (content, rest2) =>
        .inl (String.mk before) :: .inr (String.mk content)
          :: splitParts st en fuel rest2

/-- Embeds the `raw_text` property: `re.sub(r'[{start}{end}]', '', raw)`
is a *non-f-string* character class, so it removes the literal characters
`\x7b s t a r \x7d e n d` from the template. -/
def rawTextOf (raw : String) : String :=
  String.mk (raw.data.filter (fun c =>
    !(c = '\x7b' || c = 's' || c = 't' || c = 'a' || c = 'r'
      || c = '\x7d' || c = 'e' || c = 'n' || c = 'd')))

/-- Embeds `EditableTemplate._split_template`: even-index parts become
`FixedText` (dropped when empty), odd-index parts become `EditableText`
with stripped name, the `raw_text` context, no validator and no error. -/
def split_template (raw start end_ : String) : List Token :=
  (splitParts start.data end_.data (raw.data.length + 1) raw.data).flatMap
    (fun part =>
      match part with
      | .inl f => if f = "" then [] else [.fixed f]
      | .inr nm =>
        [.editable { name := pyStrip nm, value := "",
                     context := some (rawTextOf raw) }])

/-- Embeds `EditableTemplate` after `__post_init__`. -/
structure EditableTemplate where
  raw_template : String
  start : String
  end_ : String
  tokens : List Token

/-- `EditableTemplate(raw, start, end)` (the dataclass constructor plus
`__post_init__`). -/
def mkEditableTemplate (raw : String) (start : String := "\x7b")
    (end_ : String := "\x7d") : EditableTemplate :=
  { raw_template := raw, start := start, end_ := end_,
    tokens := split_template raw start end_ }

/-- The names that appear as keys of the `editables` dict. -/
def editableNames (tokens : List Token) : List String :=
  tokens.filterMap (fun tok =>
    match tok with
    | .editable t => some t.name
    | _ => none)

/-- `self.editables[name]`: last-write-wins, so the *last* editable token
with the name. -/
def editablesGet (tokens : List Token) (name : String) : Option EditableText :=
  (tokens.filterMap (fun tok =>
    match tok with
    | .editable t => if t.name == name then some t else none
    | _ => none)).getLast?

/-- Scanning from the front, replaces the value of the first editable
token with the given name. -/
def setFirstEditableRev (name value : String) : List Token → List Token
  | [] => []
  | .editable t :: ts =>
    if t.name == name then .editable { t with value := value } :: ts
    else .editable t :: setFirstEditableRev name value ts
  | tok :: ts => tok :: setFirstEditableRev name value ts

/-- Assignment through the `editables` dict mutates the last token with
the name (the object the dict maps to), setting its `value` field
directly: replace the first matching token of the reversed list. -/
def updateLastEditable (name value : String) (tokens : List Token) : List Token :=
  (setFirstEditableRev name value tokens.reverse).reverse

/-- Embeds `EditableTemplate.set_value`: `self.editables[name].value =
value` when the name is present (no validator call, no error update); a
missing name is a silent no-op. -/
def set_value (tpl : EditableTemplate) (name value : String) : EditableTemplate :=
  if (editableNames tpl.tokens).contains name then
    { tpl with tokens := updateLastEditable name value tpl.tokens }
  else tpl

/-- Embeds `EditableTemplate.render`: fixed text verbatim; an editable
token's value when set (non-empty), otherwise the `start+name+end` form. -/
def render (tpl : EditableTemplate) : String :=
  String.join (tpl.tokens.map (fun tok =>
    match tok with
    | .fixed f => f
    | .editable t =>
      if t.value = "" then tpl.start ++ t.name ++ tpl.end_ else t.value))

/-! ### Fixtures used by the claim theorems -/
/-- A representative decoder-accepted tree: a block holding one element
of every registry kind whose builder completes and round-trips — a row,
a note, an html, a define, a suspend, an exec, a res, a style, a loop
(with a nested row and a looprow/loopvar), a quota, a goto, a logic, an
empty samplesources, a var, an exit and a condition. -/
def fixtureTree : XmlTree :=
  .node "block" [("label", some "B1")] none
    (.cons (.node "row" [("label", some "r1"), ("groups", some "g1,g2")]
             (some "Agree") .nil)
      (.cons (.node "note" [] (some " a note ") .nil)
        (.cons (.node "html" [("label", some "H1")] (some "<p>hi</p>") .nil)
          (.cons (.node "define" [("label", some "D1")] none
                   (.cons (.node "row" [("label", some "d1"), ("groups", some "gd")]
                            (some "Def") .nil) .nil))
            (.cons (.node "suspend" [] none .nil)
              (.cons (.node "exec" [] (some " x = 1 ") .nil)
                (.cons (.node "res" [("label", some "R1")] (some "Resource") .nil)
                  (.cons (.node "style" [("name", some "question.top")]
                           (some "body") .nil)
                    (.cons (.node "loop" [("label", some "LP")] none
                             (.cons (.node "row"
                                      [("label", some "l1"), ("groups", some "g")]
                                      (some "Item") .nil)
                               (.cons (.node "looprow" [("label", some "lr1")] none
                                        (.cons (.node "loopvar"
                                                 [("name", some "v")]
                                                 (some "val") .nil) .nil))
                                 .nil)))
                      (.cons (.node "quota"
                               [("label", some "QT"), ("sheet", some "sheet1"),
                                ("overquota", some "noqual")] (some "sheet") .nil)
                        (.cons (.node "goto" [("target", some "Q5")] none .nil)
                          (.cons (.node "logic"
                                   [("label", some "LG"), ("uses", some "std")]
                                   none .nil)
                            (.cons (.node "samplesources"
                                     [("default", some "1")] none .nil)
                              (.cons (.node "var"
                                       [("name", some "psid"),
                                        ("unique", some "1"),
                                        ("values", some "a")] none .nil)
                                (.cons (.node "exit"
                                         [("cond", some "qualified"),
                                          ("url", some "https://x")]
                                         (some "bye") .nil)
                                  (.cons (.node "condition"
                                           [("label", some "C1"),
                                            ("cond", some "A or B")]
                                           (some "txt") .nil)
                                    .nil))))))))))))))))

/-- The decode of `fixtureTree`. -/
def fixtureElem : SElem :=
  .blockE (some "B1")
    (.cons (.rowE { label := some "r1", content := some "Agree", cond := none,
                    alt := none, randomize := none, groups := ["g1", "g2"] })
      (.cons (.noteE "a note")
        (.cons (.htmlE (some "H1") (some "<p>hi</p>"))
          (.cons (.defineE (some "D1")
                   [{ label := some "d1", content := some "Def", cond := none,
                      alt := none, randomize := none, groups := ["gd"] }])
            (.cons .suspendE
              (.cons (.execE "x = 1")
                (.cons (.resE (some "R1") (some "Resource"))
                  (.cons (.styleE
                           { name := some "question.top", label := none,
                             copy := none, cond := none, rows := none,
                             cols := none, mode := [], after := none,
                             before := none, withx := none, wrap := none,
                             content := "body" })
                    (.cons (.loopE (some "LP")
                             (.cons (.rowE
                                      { label := some "l1",
                                        content := some "Item", cond := none,
                                        alt := none, randomize := none,
                                        groups := ["g"] }) .nil)
                             [{ label := some "lr1", cond := none,
                                vars := [{ name := some "v",
                                           value := some "val" }] }])
                      (.cons (.quotaE (some "QT") (some "sheet1")
                               (some "noqual") (some "sheet"))
                        (.cons (.gotoE (some "Q5") none)
                          (.cons (.logicE (some "LG") (some "std"))
                            (.cons (.samplesourcesE (some "1") [])
                              (.cons (.varE { name := some "psid",
                                              unique := some "1",
                                              values := some "a" })
                                (.cons (.exitE { cond := some "qualified",
                                                 url := some "https://x",
                                                 content := some "bye" })
                                  (.cons (.conditionE (some "C1")
                                           (some "A or B") (some "txt"))
                                    .nil))))))))))))))))

/-- A row element whose `label` attribute is present but empty: accepted by
the decoder, but the empty string is dropped by the encoder. -/
def emptyLabelRowTree : XmlTree :=
  .node "row" [("label", some ""), ("groups", some "g")] (some "A") .nil

def emptyLabelRow : Cell :=
  { label := some "", content := some "A", cond := none, alt := none,
    randomize := none, groups := ["g"] }

def droppedLabelRow : Cell :=
  { label := none, content := some "A", cond := none, alt := none,
    randomize := none, groups := ["g"] }

/-- A decoder-accepted `<term>` element. -/
def c1TermTree : XmlTree :=
  .node "term" [("label", some "T1"), ("cond", some "S2=1")]
    (some "Screened out") .nil

def c1TermElem : SElem := .termE (some "T1") (some "S2=1") "Screened out"

/-- A decoder-accepted `<style>` with a non-empty `mode` set. -/
def c1StyleTree : XmlTree :=
  .node "style" [("name", some "question.header"), ("mode", some "before")]
    (some "extra") .nil

def c1StyleIn : Style :=
  { name := some "question.header", label := none, copy := none, cond := none,
    rows := none, cols := none, mode := [.before], after := none,
    before := none, withx := none, wrap := none, content := "extra" }

def c1StyleOut : Style := { c1StyleIn with mode := [] }

/-- A decoder-accepted `<samplesource>` with its `title`/`invalid`/
`completed` child tags present. -/
def c1SsTree : XmlTree :=
  .node "samplesource" [("list", some "1")] none
    (.cons (.node "title" [] (some "Welcome") .nil)
      (.cons (.node "invalid" [] (some "Bad") .nil)
        (.cons (.node "completed" [] (some "Done") .nil) .nil)))

def c1SsIn : SampleSource :=
  { list := some "1", title := some "Welcome", invalid := some "Bad",
    completed := some "Done", vars := [], exits := [] }

def c1SsOut : SampleSource :=
  { c1SsIn with title := none, invalid := none, completed := none }

/-! ## C2 — the spec's concrete radio fixture -/
/-- `<radio label="Q1"><title>Pick one</title><row label="r1">A</row>
<row label="r2">B</row></radio>`. -/
def radioFixture : XmlTree :=
  .node "radio" [("label", some "Q1")] none
    (.cons (.node "title" [] (some "Pick one") .nil)
      (.cons (.node "row" [("label", some "r1")] (some "A") .nil)
        (.cons (.node "row" [("label", some "r2")] (some "B") .nil) .nil)))

/-! ## C3 — inserts, DefineRefs and binding -/
def c3RowA : Cell :=
  { label := some "x1", content := some "Apples", cond := none, alt := none,
    randomize := none, groups := ["g"] }

def c3RowB : Cell :=
  { label := some "x2", content := some "Pears", cond := none, alt := none,
    randomize := none, groups := ["g"] }

def c3Row1 : Cell :=
  { label := some "r1", content := some "Direct", cond := none, alt := none,
    randomize := none, groups := ["g"] }

def c3Defs : List (String × List Cell) := [("X", [c3RowA, c3RowB])]

/-- A question row collection: one direct `<row>` followed by
`<insert source="X"/>`. -/
def c3Forest : XmlForest :=
  .cons (.node "row" [("label", some "r1"), ("groups", some "g")]
          (some "Direct") .nil)
    (.cons (.node "insert" [("source", some "X")] none .nil) .nil)

/-! ## C4 — resolve_inserts -/
def c4Brand : Cell :=
  { label := some "br1", content := some "Acme", cond := none, alt := none,
    randomize := none, groups := ["g"] }

def c4Keep : Cell :=
  { label := some "r0", content := some "Other", cond := none, alt := none,
    randomize := none, groups := ["g"] }

def c4Ref : DefineRef := { source := "BRANDS", parent := some "Q1" }

def c4UserDefines : List (String × Define) :=
  [("BRANDS", { label := some "BRANDS", rows := [c4Brand] })]

/-- A question holding one `DefineRef` on the editable label `BRANDS` and
one ordinary row. -/
def c4Question : QState :=
  { label := "Q1", rows := [.ref c4Ref, .cell c4Keep],
    historic_define_refs := none }

/-- The contribution of one `DefineRef` to the `insert_rows` list built by
`resolve_inserts`: the row tuple of the user define when the ref's source
is an editable label (and registered), nothing otherwise. -/
def editableLookup (ud : List (String × Define)) (d : DefineRef) :
    Option (List Cell) :=
  if isEditableLabel d.source then
    ((ud.find? (fun p => p.1 == d.source)).map (·.2)).map (·.rows)
  else none

/-! ## C8 — soft validation on EditableText.set -/
/-- Overwrites the error slot of an editable token (identity on fixed
text); used to state that `render` never reads the error slots. -/
def withError (err : Option String) : Token → Token
  | .editable t => .editable { t with error := err }
  | tok => tok

/-! ### Theorems -/

theorem splitCommaChars_of_commaFree :
    ∀ (t : List Char), ',' ∉ t → splitCommaChars t = [t] := by
  intro t
  induction t with
  | nil => intro _; rfl
  | cons c cs ih =>
    intro hf
    have hc : ¬ c = ',' := fun h => hf (by simp [h])
    have hcs : ',' ∉ cs := fun h => hf (by simp [h])
    simp only [splitCommaChars, hc, if_false, ih hcs]

theorem splitCommaChars_append_comma (rest : List Char) :
    ∀ (t : List Char), ',' ∉ t →
      splitCommaChars (t ++ ',' :: rest) = t :: splitCommaChars rest := by
  intro t
  induction t with
  | nil => intro _; simp [splitCommaChars]
  | cons c cs ih =>
    intro hf
    have hc : ¬ c = ',' := fun h => hf (by simp [h])
    have hcs : ',' ∉ cs := fun h => hf (by simp [h])
    simp only [List.cons_append, splitCommaChars, hc, if_false]
    rw [show cs.append (',' :: rest) = cs ++ ',' :: rest from rfl, ih hcs]

theorem splitCommaChars_joinCommaChars :
    ∀ (l : List (List Char)), l ≠ [] → (∀ t ∈ l, ',' ∉ t) →
      splitCommaChars (joinCommaChars l) = l := by
  intro l
  induction l with
  | nil => intro h; exact absurd rfl h
  | cons t ts ih =>
    intro _ hfree
    have hf : ',' ∉ t := hfree t (by simp)
    cases ts with
    | nil => simpa [joinCommaChars] using splitCommaChars_of_commaFree t hf
    | cons t2 ts2 =>
      have hrest : splitCommaChars (joinCommaChars (t2 :: ts2)) = t2 :: ts2 :=
        ih (by simp) (by intro x hx; exact hfree x (by simp [hx]))
      simp only [joinCommaChars]
      rw [splitCommaChars_append_comma _ t hf, hrest]

theorem splitComma_joinComma (l : List String) (hne : l ≠ [])
    (hfree : ∀ t ∈ l, ',' ∉ t.data) : splitComma (joinComma l) = l := by
  unfold splitComma joinComma
  rw [show (String.mk (joinCommaChars (l.map String.data))).data
        = joinCommaChars (l.map String.data) from rfl,
    splitCommaChars_joinCommaChars (l.map String.data)
      (by simpa using hne)
      (by intro t ht; rcases List.mem_map.1 ht with ⟨s, hs, rfl⟩; exact hfree s hs),
    List.map_map]
  have : (fun l => String.mk l) ∘ String.data = id := by
    funext s; rfl
  rw [this, List.map_id]

theorem mkStrSet_canon (l : List String) (h : IsCanonSet l) : mkStrSet l = l := by
  unfold mkStrSet
  rw [List.Nodup.dedup h.2, List.Sorted.insertionSort_eq h.1]

/-! ### Attribute lookup on encoder output -/
theorem emitAttrs_find?_none (pairs : List (String × Option String)) (k : String)
    (hk : ∀ p ∈ pairs, p.1 ≠ k) :
    (emitAttrs pairs).find? (fun p => p.1 == k) = none := by
  induction pairs with
  | nil => rfl
  | cons p rest ih =>
    have hp : p.1 ≠ k := hk p (by simp)
    have hrest : ∀ q ∈ rest, q.1 ≠ k := fun q hq => hk q (by simp [hq])
    unfold emitAttrs at *
    rw [List.filterMap_cons]
    cases hv : p.2 with
    | none => exact ih hrest
    | some s =>
      by_cases hs : s = ""
      · simp only [hs, if_pos trivial]
        exact ih hrest
      · simp only [if_neg hs]
        rw [List.find?_cons_of_neg _ (by simpa using hp)]
        exact ih hrest

theorem emitAttrs_find?_unique (l₁ l₂ : List (String × Option String))
    (k : String) (v : Option String)
    (h₁ : ∀ p ∈ l₁, p.1 ≠ k) (h₂ : ∀ p ∈ l₂, p.1 ≠ k) :
    (emitAttrs (l₁ ++ (k, v) :: l₂)).find? (fun p => p.1 == k)
      = match v with
        | none => none
        | some s => if s = "" then none else some (k, some s) := by
  induction l₁ with
  | nil =>
    simp only [List.nil_append]
    unfold emitAttrs
    rw [List.filterMap_cons]
    cases v with
    | none => exact emitAttrs_find?_none l₂ k h₂
    | some s =>
      by_cases hs : s = ""
      · simp only [hs, if_pos trivial]
        exact emitAttrs_find?_none l₂ k h₂
      · simp only [if_neg hs]
        rw [List.find?_cons_of_pos _ (by simp)]
  | cons p rest ih =>
    have hp : p.1 ≠ k := h₁ p (by simp)
    have hrest : ∀ q ∈ rest, q.1 ≠ k := fun q hq => h₁ q (by simp [hq])
    unfold emitAttrs at *
    rw [List.cons_append, List.filterMap_cons]
    cases hv : p.2 with
    | none => exact ih hrest
    | some s =>
      by_cases hs : s = ""
      · simp only [hs, if_pos trivial]
        exact ih hrest
      · simp only [if_neg hs]
        rw [List.find?_cons_of_neg _ (by simpa using hp)]
        exact ih hrest

theorem pyAttr_of_find?_some (el : XmlTree) (name : String)
    (p : String × Option String)
    (h : el.attrs.find? (fun q => q.1 == name) = some p) :
    pyAttr el name = p.2 := by
  unfold pyAttr; rw [h]

theorem pyAttr_of_find?_none (el : XmlTree) (name : String)
    (h : el.attrs.find? (fun q => q.1 == name) = none)
    (hc : name.data.contains ':' = false) :
    pyAttr el name = none := by
  unfold pyAttr
  rw [h, hc]
  simp

/-- The single lookup fact needed per attribute key of the cell encoder. -/
theorem cellToXml_find? (tag : String) (r : Cell) (k : String)
    (l₁ l₂ : List (String × Option String)) (v : Option String)
    (hsplit : cellPairs r = l₁ ++ (k, v) :: l₂)
    (h₁ : ∀ p ∈ l₁, p.1 ≠ k) (h₂ : ∀ p ∈ l₂, p.1 ≠ k) :
    (cellToXml tag r).attrs.find? (fun q => q.1 == k)
      = v.bind (fun s => if s = "" then none else some (k, some s)) := by
  show (emitAttrs (cellPairs r)).find? (fun q => q.1 == k) = _
  calc (emitAttrs (cellPairs r)).find? (fun q => q.1 == k)
      = (emitAttrs (l₁ ++ (k, v) :: l₂)).find? (fun q => q.1 == k) := by
        rw [hsplit]
    _ = _ := by
        rw [emitAttrs_find?_unique l₁ l₂ k v h₁ h₂]
        cases v <;> rfl

theorem str_eq_id (v : Option String) : str_ v = v := by
  cases v <;> rfl

theorem bool_bit_ne_empty (b : Option Bool) : bool_bit b ≠ some "" := by
  cases b with
  | none => simp [bool_bit]
  | some x => cases x <;> simp [bool_bit]

theorem pyAttr_cellToXml_of_split (tag : String) (r : Cell) (k : String)
    (v : Option String) (l₁ l₂ : List (String × Option String))
    (hsplit : cellPairs r = l₁ ++ (k, v) :: l₂)
    (h₁ : ∀ p ∈ l₁, p.1 ≠ k) (h₂ : ∀ p ∈ l₂, p.1 ≠ k)
    (hk : k.data.contains ':' = false) (hv : v ≠ some "") :
    pyAttr (cellToXml tag r) k = v := by
  have hf := cellToXml_find? tag r k l₁ l₂ v hsplit h₁ h₂
  cases v with
  | none => exact pyAttr_of_find?_none _ _ (by simpa using hf) hk
  | some s =>
    have hs : ¬ s = "" := fun he => hv (by rw [he])
    have hfs : (cellToXml tag r).attrs.find? (fun q => q.1 == k)
        = some (k, some s) := by
      rw [hf]; simp [hs]
    rw [pyAttr_of_find?_some _ _ _ hfs]

theorem pyAttr_cellToXml_label (tag : String) (r : Cell) (h : r.label ≠ some "") :
    pyAttr (cellToXml tag r) "label" = r.label := by
  apply pyAttr_cellToXml_of_split tag r "label" r.label []
      [("randomize", bool_bit r.randomize), ("alt", str_ r.alt),
       ("cond", str_ r.cond), ("groups", csv r.groups)]
  · simp [cellPairs, str_eq_id]
  · intro p hp; simp at hp
  · intro p hp
    simp only [List.mem_cons, List.not_mem_nil, or_false] at hp
    rcases hp with rfl | rfl | rfl | rfl <;> simp
  · decide
  · exact h

theorem pyAttr_cellToXml_randomize (tag : String) (r : Cell) :
    pyAttr (cellToXml tag r) "randomize" = bool_bit r.randomize := by
  apply pyAttr_cellToXml_of_split tag r "randomize" (bool_bit r.randomize)
      [("label", str_ r.label)]
      [("alt", str_ r.alt), ("cond", str_ r.cond), ("groups", csv r.groups)]
  · simp [cellPairs]
  · intro p hp
    simp only [List.mem_cons, List.not_mem_nil, or_false] at hp
    rcases hp with rfl <;> simp
  · intro p hp
    simp only [List.mem_cons, List.not_mem_nil, or_false] at hp
    rcases hp with rfl | rfl | rfl <;> simp
  · decide
  · exact bool_bit_ne_empty r.randomize

theorem pyAttr_cellToXml_alt (tag : String) (r : Cell) (h : r.alt ≠ some "") :
    pyAttr (cellToXml tag r) "alt" = r.alt := by
  apply pyAttr_cellToXml_of_split tag r "alt" r.alt
      [("label", str_ r.label), ("randomize", bool_bit r.randomize)]
      [("cond", str_ r.cond), ("groups", csv r.groups)]
  · simp [cellPairs, str_eq_id]
  · intro p hp
    simp only [List.mem_cons, List.not_mem_nil, or_false] at hp
    rcases hp with rfl | rfl <;> simp
  · intro p hp
    simp only [List.mem_cons, List.not_mem_nil, or_false] at hp
    rcases hp with rfl | rfl <;> simp
  · decide
  · exact h

theorem pyAttr_cellToXml_cond (tag : String) (r : Cell) (h : r.cond ≠ some "") :
    pyAttr (cellToXml tag r) "cond" = r.cond := by
  apply pyAttr_cellToXml_of_split tag r "cond" r.cond
      [("label", str_ r.label), ("randomize", bool_bit r.randomize),
       ("alt", str_ r.alt)]
      [("groups", csv r.groups)]
  · simp [cellPairs, str_eq_id]
  · intro p hp
    simp only [List.mem_cons, List.not_mem_nil, or_false] at hp
    rcases hp with rfl | rfl | rfl <;> simp
  · intro p hp
    simp only [List.mem_cons, List.not_mem_nil, or_false] at hp
    rcases hp with rfl <;> simp
  · decide
  · exact h

theorem pyAttr_cellToXml_groups (tag : String) (r : Cell)
    (hne : r.groups ≠ []) (hjne : joinComma r.groups ≠ "") :
    pyAttr (cellToXml tag r) "groups" = some (joinComma r.groups) := by
  have hcsv : csv r.groups = some (joinComma r.groups) := by
    unfold csv
    rw [if_neg (by simpa using hne)]
  have := pyAttr_cellToXml_of_split tag r "groups" (csv r.groups)
      [("label", str_ r.label), ("randomize", bool_bit r.randomize),
       ("alt", str_ r.alt), ("cond", str_ r.cond)] []
      (by simp [cellPairs])
      (by intro p hp
          simp only [List.mem_cons, List.not_mem_nil, or_false] at hp
          rcases hp with rfl | rfl | rfl | rfl <;> simp)
      (by intro p hp; simp at hp)
      (by decide)
      (by rw [hcsv]; simpa using hjne)
  rw [this, hcsv]

theorem pyBit_cellToXml_randomize (tag : String) (r : Cell) :
    pyBit (cellToXml tag r) "randomize" = r.randomize := by
  unfold pyBit
  rw [pyAttr_cellToXml_randomize]
  cases hb : r.randomize with
  | none => rfl
  | some b => cases b <;> rfl

/-- Decoding the encoder output of a good cell recovers it exactly. -/
theorem parse_cell_cellToXml (tag : String) (r : Cell) (h : goodCell r) :
    parse_cell (cellToXml tag r) = .ok r := by
  obtain ⟨hl, hc, ha, _hct, hcanon, hne, hjne, hfree⟩ := h
  have hGroups := pyAttr_cellToXml_groups tag r hne hjne
  have hLabel := pyAttr_cellToXml_label tag r hl
  have hCond := pyAttr_cellToXml_cond tag r hc
  have hAlt := pyAttr_cellToXml_alt tag r ha
  have hRand := pyBit_cellToXml_randomize tag r
  have hText : (cellToXml tag r).text = r.content := rfl
  unfold parse_cell
  rw [hGroups]
  simp only [hLabel, hCond, hAlt, hRand, hText]
  have hG : mkStrSet (splitComma (joinComma r.groups)) = r.groups := by
    rw [splitComma_joinComma _ hne hfree, mkStrSet_canon _ hcanon]
  rw [hG]

/-- `parse_rows` on the encoder output of a list of good rows is the
identity: every encoded child carries tag `row` and parses back. -/
theorem parse_rows_encoded (defs : List (String × List Cell)) :
    ∀ (rs : List Cell), (∀ r ∈ rs, goodCell r) →
      parse_rows defs (XmlForest.ofList (rs.map (fun r => cellToXml "row" r)))
        = .ok rs := by
  intro rs
  induction rs with
  | nil => intro _; rfl
  | cons r rest ih =>
    intro h
    have hr : goodCell r := h r (by simp)
    have hrest := ih (fun x hx => h x (by simp [hx]))
    simp only [List.map_cons, XmlForest.ofList, parse_rows]
    rw [if_pos (show (cellToXml "row" r).tag = "row" from rfl)]
    rw [show parse_cell (cellToXml "row" r) = .ok r from
      parse_cell_cellToXml "row" r hr]
    rw [hrest]

@[simp] theorem XmlTree.tag_node (t : String) (a : List (String × Option String))
    (tx : Option String) (ch : XmlForest) : (XmlTree.node t a tx ch).tag = t := rfl

@[simp] theorem XmlTree.text_node (t : String) (a : List (String × Option String))
    (tx : Option String) (ch : XmlForest) : (XmlTree.node t a tx ch).text = tx := rfl

@[simp] theorem XmlTree.children_node (t : String)
    (a : List (String × Option String)) (tx : Option String) (ch : XmlForest) :
    (XmlTree.node t a tx ch).children = ch := rfl

theorem pyAttr_single_label (tag : String) (l : Option String)
    (tx : Option String) (ch : XmlForest) :
    pyAttr (.node tag [("label", l)] tx ch) "label" = l := by
  unfold pyAttr
  simp [XmlTree.attrs, List.find?]

theorem mem_emitAttrs (pairs : List (String × Option String))
    (p : String × Option String) (hp : p ∈ emitAttrs pairs) :
    ∃ s, p.2 = some s ∧ s ≠ "" ∧ (p.1, some s) ∈ pairs := by
  unfold emitAttrs at hp
  rcases List.mem_filterMap.1 hp with ⟨q, hq, hf⟩
  cases hv : q.2 with
  | none => rw [hv] at hf; cases hf
  | some s =>
    rw [hv] at hf
    have hf' : (if s = "" then none else some (q.1, some s)) = some p := hf
    by_cases hs : s = ""
    · rw [if_pos hs] at hf'; cases hf'
    · rw [if_neg hs] at hf'
      have hqp : (q.1, some s) = p := Option.some.inj hf'
      refine ⟨s, ?_, hs, ?_⟩
      · rw [← hqp]
      · rw [show p.1 = q.1 from by rw [← hqp]]
        rw [← hv]
        exact hq

/-! ### Serialization is the identity on well-formed encoder output -/
theorem wireAttrs_ok : ∀ (l : List (String × Option String)),
    (∀ p ∈ l, p.2 ≠ none) → wireAttrs l = .ok l
  | [], _ => rfl
  | (k, v) :: rest, h => by
    cases v with
    | none => exact absurd rfl (h (k, none) (by simp))
    | some s =>
      have hrest := wireAttrs_ok rest (fun q hq => h q (by simp [hq]))
      show (match wireAttrs rest with
        | .error e => (Except.error e : Except String (List (String × Option String)))
        | .ok l => Except.ok ((k, some s) :: l)) = _
      rw [hrest]

theorem wireAttrs_emitAttrs (pairs : List (String × Option String)) :
    wireAttrs (emitAttrs pairs) = .ok (emitAttrs pairs) := by
  apply wireAttrs_ok
  intro p hp
  rcases mem_emitAttrs pairs p hp with ⟨s, hs, _, _⟩
  rw [hs]
  simp

theorem wireText_of_ne (v : Option String) (h : v ≠ some "") :
    wireText v = v := by
  cases v with
  | none => rfl
  | some s =>
    have hs : ¬ s = "" := fun he => h (by rw [he])
    show (if s = "" then none else some s) = some s
    rw [if_neg hs]

theorem toWire_node (tg : String) (at_ : List (String × Option String))
    (tx : Option String) (ch wch : XmlForest)
    (ha : wireAttrs at_ = .ok at_) (hch : toWireF ch = .ok wch) :
    toWire (.node tg at_ tx ch) = .ok (.node tg at_ (wireText tx) wch) := by
  show (match wireAttrs at_ with
    | .error e => (Except.error e : Except String XmlTree)
    | .ok wa =>
      match toWireF ch with
      | .error e => Except.error e
      | .ok wch2 => Except.ok (XmlTree.node tg wa (wireText tx) wch2)) = _
  rw [ha, hch]

theorem toList_ofList : ∀ (l : List XmlTree),
    XmlForest.toList (XmlForest.ofList l) = l
  | [] => rfl
  | t :: ts => by
    show t :: XmlForest.toList (XmlForest.ofList ts) = t :: ts
    rw [toList_ofList ts]

theorem toWireF_ofList : ∀ (l : List XmlTree), (∀ t ∈ l, toWire t = .ok t) →
    toWireF (XmlForest.ofList l) = .ok (XmlForest.ofList l)
  | [], _ => rfl
  | t :: ts, h => by
    have ht := h t (by simp)
    have hts := toWireF_ofList ts (fun x hx => h x (by simp [hx]))
    show (match toWire t with
      | .error e => (Except.error e : Except String XmlForest)
      | .ok w =>
        match toWireF (XmlForest.ofList ts) with
        | .error e => Except.error e
        | .ok ws => Except.ok (XmlForest.cons w ws)) = _
    rw [ht, hts]
    rfl

theorem toWire_cellToXml (tag : String) (r : Cell) (h : goodCell r) :
    toWire (cellToXml tag r) = .ok (cellToXml tag r) := by
  have hct : r.content ≠ some "" := h.2.2.2.1
  show toWire (.node tag (emitAttrs (cellPairs r)) r.content .nil)
    = .ok (.node tag (emitAttrs (cellPairs r)) r.content .nil)
  rw [toWire_node tag (emitAttrs (cellPairs r)) r.content .nil .nil
      (wireAttrs_emitAttrs (cellPairs r)) rfl]
  rw [wireText_of_ne r.content hct]

theorem toWire_loopvarToXml (v : Loopvar) (h : goodLoopvar v = true) :
    toWire (loopvarToXml v) = .ok (loopvarToXml v) := by
  have h' : v.name.isSome = true ∧ v.value ≠ some "" := by
    simpa [goodLoopvar] using h
  obtain ⟨s, hs⟩ := Option.isSome_iff_exists.1 h'.1
  show toWire (.node "loopvar" [("name", v.name)] v.value .nil)
    = .ok (.node "loopvar" [("name", v.name)] v.value .nil)
  rw [hs]
  rw [toWire_node "loopvar" [("name", some s)] v.value .nil .nil rfl rfl]
  rw [wireText_of_ne v.value h'.2]

theorem toWire_looprowToXml (lr : Looprow) (h : goodLooprow lr = true) :
    toWire (looprowToXml lr) = .ok (looprowToXml lr) := by
  have h' : (lr.label.isSome = true ∧ lr.cond = none)
      ∧ ∀ x ∈ lr.vars, goodLoopvar x = true := by
    simpa [goodLooprow, List.all_eq_true] using h
  obtain ⟨⟨hl, hc⟩, hv⟩ := h'
  obtain ⟨s, hs⟩ := Option.isSome_iff_exists.1 hl
  have hch : toWireF (XmlForest.ofList (lr.vars.map loopvarToXml))
      = .ok (XmlForest.ofList (lr.vars.map loopvarToXml)) := by
    apply toWireF_ofList
    intro t ht
    rcases List.mem_map.1 ht with ⟨x, hx, rfl⟩
    exact toWire_loopvarToXml x (hv x hx)
  show toWire (.node "looprow" (("label", lr.label) :: optAttr "cond" lr.cond)
      none (XmlForest.ofList (lr.vars.map loopvarToXml)))
    = .ok (.node "looprow" (("label", lr.label) :: optAttr "cond" lr.cond)
      none (XmlForest.ofList (lr.vars.map loopvarToXml)))
  rw [hs, hc]
  rw [toWire_node "looprow" (("label", some s) :: optAttr "cond" none) none
      (XmlForest.ofList (lr.vars.map loopvarToXml))
      (XmlForest.ofList (lr.vars.map loopvarToXml)) rfl hch]
  rfl

mutual
/-- Serialization (`toWire`) is the identity on the encoder output of a
good decoded value: every stored attribute value is present and no
written text is empty. -/
theorem toWire_encodeE : ∀ (e : SElem), goodE e = true →
    toWire (encodeE e) = .ok (encodeE e)
  | .rowE r, h => toWire_cellToXml "row" r (by simpa [goodE] using h)
  | .colE r, h => toWire_cellToXml "col" r (by simpa [goodE] using h)
  | .choiceE r, h => toWire_cellToXml "choice" r (by simpa [goodE] using h)
  | .noteE c, h => by
    have h' : pyStrip c = c ∧ c ≠ "" := by simpa [goodE] using h
    show toWire (.node "note" [] (some c) .nil)
      = .ok (.node "note" [] (some c) .nil)
    rw [toWire_node "note" [] (some c) .nil .nil rfl rfl]
    rw [wireText_of_ne (some c) (by simpa using h'.2)]
  | .htmlE l c, h => by
    have h' : l.isSome = true ∧ c ≠ some "" := by simpa [goodE] using h
    obtain ⟨s, hs⟩ := Option.isSome_iff_exists.1 h'.1
    show toWire (.node "html" [("label", l)] c .nil)
      = .ok (.node "html" [("label", l)] c .nil)
    rw [hs, toWire_node "html" [("label", some s)] c .nil .nil rfl rfl,
        wireText_of_ne c h'.2]
  | .defineE l rs, h => by
    have h' : l.isSome = true ∧ ∀ r ∈ rs, goodCell r := by
      simpa [goodE, List.all_eq_true] using h
    obtain ⟨s, hs⟩ := Option.isSome_iff_exists.1 h'.1
    have hch : toWireF (XmlForest.ofList (rs.map (fun r => cellToXml "row" r)))
        = .ok (XmlForest.ofList (rs.map (fun r => cellToXml "row" r))) := by
      apply toWireF_ofList
      intro t ht
      rcases List.mem_map.1 ht with ⟨x, hx, rfl⟩
      exact toWire_cellToXml "row" x (h'.2 x hx)
    show toWire (.node "define" [("label", l)] none
        (XmlForest.ofList (rs.map (fun r => cellToXml "row" r))))
      = .ok (.node "define" [("label", l)] none
        (XmlForest.ofList (rs.map (fun r => cellToXml "row" r))))
    rw [hs, toWire_node "define" [("label", some s)] none _ _ rfl hch]
    rfl
  | .blockE l cs, h => by
    have h' : l.isSome = true ∧ goodF cs = true := by simpa [goodE] using h
    obtain ⟨s, hs⟩ := Option.isSome_iff_exists.1 h'.1
    have hch := toWireF_encodeF cs h'.2
    show toWire (.node "block" [("label", l)] none (encodeF cs))
      = .ok (.node "block" [("label", l)] none (encodeF cs))
    rw [hs, toWire_node "block" [("label", some s)] none _ _ rfl hch]
    rfl
  | .suspendE, _ => rfl
  | .execE c, h => by
    have h' : pyStrip c = c ∧ c ≠ "" := by simpa [goodE] using h
    show toWire (.node "exec" [] (some c) .nil)
      = .ok (.node "exec" [] (some c) .nil)
    rw [toWire_node "exec" [] (some c) .nil .nil rfl rfl,
        wireText_of_ne (some c) (by simpa using h'.2)]
  | .resE l c, h => by
    have h' : l.isSome = true ∧ c ≠ some "" := by simpa [goodE] using h
    obtain ⟨s, hs⟩ := Option.isSome_iff_exists.1 h'.1
    show toWire (.node "res" [("label", l)] c .nil)
      = .ok (.node "res" [("label", l)] c .nil)
    rw [hs, toWire_node "res" [("label", some s)] c .nil .nil rfl rfl,
        wireText_of_ne c h'.2]
  | .styleE s, h => by
    have hst : goodStyle s = true := by simpa [goodE] using h
    have hct : s.content ≠ "" := by
      unfold goodStyle at hst
      simp only [Bool.and_eq_true, bne_iff_ne, ne_eq, beq_iff_eq,
        List.isEmpty_iff] at hst
      exact hst.2
    show toWire (.node "style" (emitAttrs (stylePairs s)) (some s.content) .nil)
      = .ok (.node "style" (emitAttrs (stylePairs s)) (some s.content) .nil)
    rw [toWire_node "style" (emitAttrs (stylePairs s)) (some s.content) .nil .nil
        (wireAttrs_emitAttrs _) rfl,
        wireText_of_ne (some s.content) (by simpa using hct)]
  | .loopE l cs lrs, h => by
    have h' : (l.isSome = true ∧ goodF cs = true)
        ∧ ∀ x ∈ lrs, goodLooprow x = true := by
      simpa [goodE, List.all_eq_true] using h
    obtain ⟨⟨hl, hcs⟩, hlrs⟩ := h'
    obtain ⟨s, hs⟩ := Option.isSome_iff_exists.1 hl
    have hch := toWireF_encodeF_append cs (lrs.map looprowToXml) hcs
      (toWireF_ofList _ (fun t ht => by
        rcases List.mem_map.1 ht with ⟨x, hx, rfl⟩
        exact toWire_looprowToXml x (hlrs x hx)))
    show toWire (.node "loop" [("label", l)] none
        (XmlForest.append (encodeF cs) (lrs.map looprowToXml)))
      = .ok (.node "loop" [("label", l)] none
        (XmlForest.append (encodeF cs) (lrs.map looprowToXml)))
    rw [hs, toWire_node "loop" [("label", some s)] none _ _ rfl hch]
    rfl
  | .quotaE l sh oq c, h => by
    have h' : ((l.isSome = true ∧ sh.isSome = true) ∧ oq.isSome = true)
        ∧ c ≠ some "" := by simpa [goodE] using h
    obtain ⟨⟨⟨hl, hsh⟩, hoq⟩, hc⟩ := h'
    obtain ⟨a, ha⟩ := Option.isSome_iff_exists.1 hl
    obtain ⟨b, hb⟩ := Option.isSome_iff_exists.1 hsh
    obtain ⟨d, hd⟩ := Option.isSome_iff_exists.1 hoq
    show toWire (.node "quota"
        [("label", l), ("sheet", sh), ("overquota", oq)] c .nil)
      = .ok (.node "quota"
        [("label", l), ("sheet", sh), ("overquota", oq)] c .nil)
    rw [ha, hb, hd,
        toWire_node "quota" [("label", some a), ("sheet", some b),
          ("overquota", some d)] c .nil .nil rfl rfl,
        wireText_of_ne c hc]
  | .gotoE t c, h => by
    have h' : t.isSome = true ∧ c ≠ some "" := by simpa [goodE] using h
    obtain ⟨a, ha⟩ := Option.isSome_iff_exists.1 h'.1
    show toWire (.node "goto" (("target", t) :: optAttr "cond" c) none .nil)
      = .ok (.node "goto" (("target", t) :: optAttr "cond" c) none .nil)
    rw [ha]
    cases c with
    | none =>
      rw [toWire_node "goto" (("target", some a) :: optAttr "cond" none)
          none .nil .nil rfl rfl]
      rfl
    | some sc =>
      have hsc : ¬ sc = "" := fun he => h'.2 (by rw [he])
      have hopt : optAttr "cond" (some sc) = [("cond", some sc)] := by
        simp [optAttr, hsc]
      rw [hopt, toWire_node "goto" [("target", some a), ("cond", some sc)]
          none .nil .nil rfl rfl]
      rfl
  | .termE l c s, h => by simp [goodE] at h
  | .logicE l u, h => by
    have h' : l.isSome = true ∧ u.isSome = true := by simpa [goodE] using h
    obtain ⟨a, ha⟩ := Option.isSome_iff_exists.1 h'.1
    obtain ⟨b, hb⟩ := Option.isSome_iff_exists.1 h'.2
    show toWire (.node "logic" [("label", l), ("uses", u)] none .nil)
      = .ok (.node "logic" [("label", l), ("uses", u)] none .nil)
    rw [ha, hb]
    rfl
  | .samplesourcesE d srcs, h => by
    have h' : d.isSome = true ∧ srcs = [] := by
      simpa [goodE, List.isEmpty_iff] using h
    obtain ⟨hd2, hsrc⟩ := h'
    obtain ⟨a, ha⟩ := Option.isSome_iff_exists.1 hd2
    subst hsrc
    show toWire (.node "samplesources" [("default", d)] none
        (XmlForest.ofList (List.map sampleSourceToXml [])))
      = .ok (.node "samplesources" [("default", d)] none
        (XmlForest.ofList (List.map sampleSourceToXml [])))
    rw [ha]
    rfl
  | .samplesourceE s, h => by simp [goodE] at h
  | .varE v, h => by
    have h' : (v.name.isSome = true ∧ v.unique.isSome = true)
        ∧ v.values.isSome = true := by simpa [goodE, goodVar] using h
    obtain ⟨⟨h1, h2⟩, h3⟩ := h'
    obtain ⟨a, ha⟩ := Option.isSome_iff_exists.1 h1
    obtain ⟨b, hb⟩ := Option.isSome_iff_exists.1 h2
    obtain ⟨c2, hc2⟩ := Option.isSome_iff_exists.1 h3
    show toWire (.node "var"
        [("name", v.name), ("unique", v.unique), ("values", v.values)]
        none .nil)
      = .ok (.node "var"
        [("name", v.name), ("unique", v.unique), ("values", v.values)]
        none .nil)
    rw [ha, hb, hc2]
    rfl
  | .exitE e, h => by
    have h' : (e.cond.isSome = true ∧ e.url ≠ some "")
        ∧ e.content ≠ some "" := by simpa [goodE, goodExit] using h
    obtain ⟨⟨h1, h2⟩, h3⟩ := h'
    obtain ⟨a, ha⟩ := Option.isSome_iff_exists.1 h1
    show toWire (.node "exit" (("cond", e.cond) :: optAttr "url" e.url)
        e.content .nil)
      = .ok (.node "exit" (("cond", e.cond) :: optAttr "url" e.url)
        e.content .nil)
    rw [ha]
    cases hu : e.url with
    | none =>
      rw [toWire_node "exit" (("cond", some a) :: optAttr "url" none)
          e.content .nil .nil rfl rfl, wireText_of_ne e.content h3]
    | some su =>
      have hsu : ¬ su = "" := fun he => h2 (by rw [hu, he])
      have hopt : optAttr "url" (some su) = [("url", some su)] := by
        simp [optAttr, hsu]
      rw [hopt, toWire_node "exit" [("cond", some a), ("url", some su)]
          e.content .nil .nil rfl rfl, wireText_of_ne e.content h3]
  | .conditionE l c ct, h => by
    have h' : (l.isSome = true ∧ c.isSome = true) ∧ ct ≠ some "" := by
      simpa [goodE] using h
    obtain ⟨⟨h1, h2⟩, h3⟩ := h'
    obtain ⟨a, ha⟩ := Option.isSome_iff_exists.1 h1
    obtain ⟨b, hb⟩ := Option.isSome_iff_exists.1 h2
    show toWire (.node "condition" [("label", l), ("cond", c)] ct .nil)
      = .ok (.node "condition" [("label", l), ("cond", c)] ct .nil)
    rw [ha, hb, toWire_node "condition" [("label", some a), ("cond", some b)]
        ct .nil .nil rfl rfl, wireText_of_ne ct h3]

theorem toWireF_encodeF : ∀ (es : SForest), goodF es = true →
    toWireF (encodeF es) = .ok (encodeF es)
  | .nil, _ => rfl
  | .cons e es, h => by
    have hpair := (Bool.and_eq_true _ _).mp (by simpa [goodF] using h)
    have he := toWire_encodeE e hpair.1
    have hes := toWireF_encodeF es hpair.2
    show (match toWire (encodeE e) with
      | .error e2 => (Except.error e2 : Except String XmlForest)
      | .ok w =>
        match toWireF (encodeF es) with
        | .error e2 => Except.error e2
        | .ok ws => Except.ok (XmlForest.cons w ws)) = _
    rw [he, hes]
    rfl

theorem toWireF_encodeF_append : ∀ (cs : SForest) (B : List XmlTree),
    goodF cs = true →
    toWireF (XmlForest.ofList B) = .ok (XmlForest.ofList B) →
    toWireF (XmlForest.append (encodeF cs) B)
      = .ok (XmlForest.append (encodeF cs) B)
  | .nil, B, _, hB => hB
  | .cons e es, B, h, hB => by
    have hpair := (Bool.and_eq_true _ _).mp (by simpa [goodF] using h)
    have he := toWire_encodeE e hpair.1
    have hes := toWireF_encodeF_append es B hpair.2 hB
    show (match toWire (encodeE e) with
      | .error e2 => (Except.error e2 : Except String XmlForest)
      | .ok w =>
        match toWireF (XmlForest.append (encodeF es) B) with
        | .error e2 => Except.error e2
        | .ok ws => Except.ok (XmlForest.cons w ws)) = _
    rw [he, hes]
    rfl
end

/-! ### Decode is a left inverse of encode on good decoded values -/
theorem parse_loopvar_loopvarToXml (v : Loopvar) :
    parse_loopvar (loopvarToXml v) = v := rfl

theorem parse_looprow_looprowToXml (lr : Looprow) (hcond : lr.cond = none) :
    parse_looprow (looprowToXml lr) = lr := by
  obtain ⟨label, cond, vars⟩ := lr
  have hc : cond = none := hcond
  subst hc
  have hfind : findallTag (.node "looprow"
      (("label", label) :: optAttr "cond" none) none
      (XmlForest.ofList (vars.map loopvarToXml))) "loopvar"
      = vars.map loopvarToXml := by
    unfold findallTag
    rw [show (XmlTree.node "looprow" (("label", label) :: optAttr "cond" none)
        none (XmlForest.ofList (vars.map loopvarToXml))).children
        = XmlForest.ofList (vars.map loopvarToXml) from rfl]
    rw [toList_ofList]
    apply List.filter_eq_self.2
    intro t ht
    rcases List.mem_map.1 ht with ⟨x, _, rfl⟩
    rfl
  show parse_looprow (.node "looprow" (("label", label) :: optAttr "cond" none)
      none (XmlForest.ofList (vars.map loopvarToXml))) = ⟨label, none, vars⟩
  unfold parse_looprow
  rw [hfind, List.map_map]
  have hid : (parse_loopvar ∘ loopvarToXml) = id :=
    funext fun v => parse_loopvar_loopvarToXml v
  rw [hid, List.map_id]
  rfl

theorem decodeLoopF_looprows (defs : List (String × List Cell)) :
    ∀ (lrs : List Looprow), (∀ lr ∈ lrs, goodLooprow lr = true) →
      decodeLoopF defs (XmlForest.ofList (lrs.map looprowToXml))
        = .ok (.nil, lrs)
  | [], _ => rfl
  | lr :: rest, h => by
    have hlr := h lr (by simp)
    have hcond : lr.cond = none := by
      have h2 := hlr
      unfold goodLooprow at h2
      simp only [Bool.and_eq_true, beq_iff_eq] at h2
      exact h2.1.2
    have hrest := decodeLoopF_looprows defs rest (fun x hx => h x (by simp [hx]))
    show (match decodeLoopF defs (XmlForest.ofList (rest.map looprowToXml)) with
      | .error e => (Except.error e : Except String (SForest × List Looprow))
      | .ok (es, lrs2) =>
        Except.ok (es, parse_looprow (looprowToXml lr) :: lrs2)) = _
    rw [hrest, parse_looprow_looprowToXml lr hcond]

theorem isParserTag_encodeE (e : SElem) (h : goodE e = true) :
    isParserTag (encodeE e).tag = true := by
  cases e <;> first | rfl | simp [goodE] at h

theorem pyAttr_emitAttrs_split (tag : String)
    (pairs l₁ l₂ : List (String × Option String)) (tx : Option String)
    (ch : XmlForest) (k : String) (v : Option String)
    (hsplit : pairs = l₁ ++ (k, v) :: l₂)
    (h₁ : ∀ p ∈ l₁, p.1 ≠ k) (h₂ : ∀ p ∈ l₂, p.1 ≠ k)
    (hk : k.data.contains ':' = false) (hv : v ≠ some "") :
    pyAttr (.node tag (emitAttrs pairs) tx ch) k = v := by
  have hf : (XmlTree.node tag (emitAttrs pairs) tx ch).attrs.find?
      (fun q => q.1 == k)
      = v.bind (fun s => if s = "" then none else some (k, some s)) := by
    show (emitAttrs pairs).find? (fun q => q.1 == k) = _
    calc (emitAttrs pairs).find? (fun q => q.1 == k)
        = (emitAttrs (l₁ ++ (k, v) :: l₂)).find? (fun q => q.1 == k) := by
          rw [hsplit]
      _ = _ := by
          rw [emitAttrs_find?_unique l₁ l₂ k v h₁ h₂]
          cases v <;> rfl
  cases v with
  | none => exact pyAttr_of_find?_none _ _ (by simpa using hf) hk
  | some s =>
    have hs : ¬ s = "" := fun he => hv (by rw [he])
    have hfs : (XmlTree.node tag (emitAttrs pairs) tx ch).attrs.find?
        (fun q => q.1 == k) = some (k, some s) := by
      rw [hf]
      simp [hs]
    rw [pyAttr_of_find?_some _ _ _ hfs]

theorem pyAttr_emitAttrs_absent (tag : String)
    (pairs : List (String × Option String)) (tx : Option String)
    (ch : XmlForest) (k : String)
    (hk : ∀ p ∈ pairs, p.1 ≠ k) (hc : k.data.contains ':' = false) :
    pyAttr (.node tag (emitAttrs pairs) tx ch) k = none := by
  apply pyAttr_of_find?_none
  · show (emitAttrs pairs).find? (fun q => q.1 == k) = none
    exact emitAttrs_find?_none pairs k hk
  · exact hc

theorem parse_style_styleXml (s : Style) (h : goodStyle s = true) :
    parse_style (.node "style" (emitAttrs (stylePairs s)) (some s.content) .nil)
      = .ok (.styleE s) := by
  obtain ⟨nm, lb, cp, cd, rws, cls, md, af, bf, wx, wr, ct⟩ := s
  unfold goodStyle at h
  simp only [Bool.and_eq_true, bne_iff_ne, ne_eq, beq_iff_eq,
    List.isEmpty_iff] at h
  obtain ⟨⟨⟨⟨⟨⟨⟨⟨⟨⟨⟨⟨hmode, hnm⟩, hlb⟩, hcp⟩, hcd⟩, hrw⟩, hcl⟩, haf⟩,
    hbf⟩, hwx⟩, hwr⟩, hstrip⟩, hct⟩ := h
  subst hmode
  have hpairs : stylePairs ⟨nm, lb, cp, cd, rws, cls, [], af, bf, wx, wr, ct⟩
      = [("name", nm), ("label", lb), ("copy", cp), ("cond", cd),
         ("rows", rws), ("cols", cls), ("after", af), ("before", bf),
         ("with", wx), ("wrap", wr), ("content", some ct)] := rfl
  have hName : pyAttr (.node "style" (emitAttrs (stylePairs
      ⟨nm, lb, cp, cd, rws, cls, [], af, bf, wx, wr, ct⟩))
      (some ct) .nil) "name" = nm := by
    apply pyAttr_emitAttrs_split "style" _ []
        [("label", lb), ("copy", cp), ("cond", cd), ("rows", rws),
         ("cols", cls), ("after", af), ("before", bf), ("with", wx),
         ("wrap", wr), ("content", some ct)] (some ct) .nil "name" nm hpairs
    · intro p hp
      simp at hp
    · intro p hp
      simp only [List.mem_cons, List.not_mem_nil, or_false] at hp
      rcases hp with rfl | rfl | rfl | rfl | rfl | rfl | rfl | rfl | rfl
        | rfl <;> simp
    · decide
    · exact hnm
  have hLabel : pyAttr (.node "style" (emitAttrs (stylePairs
      ⟨nm, lb, cp, cd, rws, cls, [], af, bf, wx, wr, ct⟩))
      (some ct) .nil) "label" = lb := by
    apply pyAttr_emitAttrs_split "style" _ [("name", nm)]
        [("copy", cp), ("cond", cd), ("rows", rws), ("cols", cls),
         ("after", af), ("before", bf), ("with", wx), ("wrap", wr),
         ("content", some ct)] (some ct) .nil "label" lb hpairs
    · intro p hp
      simp only [List.mem_cons, List.not_mem_nil, or_false] at hp
      rcases hp with rfl <;> simp
    · intro p hp
      simp only [List.mem_cons, List.not_mem_nil, or_false] at hp
      rcases hp with rfl | rfl | rfl | rfl | rfl | rfl | rfl | rfl
        | rfl <;> simp
    · decide
    · exact hlb
  have hCopy : pyAttr (.node "style" (emitAttrs (stylePairs
      ⟨nm, lb, cp, cd, rws, cls, [], af, bf, wx, wr, ct⟩))
      (some ct) .nil) "copy" = cp := by
    apply pyAttr_emitAttrs_split "style" _ [("name", nm), ("label", lb)]
        [("cond", cd), ("rows", rws), ("cols", cls), ("after", af),
         ("before", bf), ("with", wx), ("wrap", wr), ("content", some ct)]
        (some ct) .nil "copy" cp hpairs
    · intro p hp
      simp only [List.mem_cons, List.not_mem_nil, or_false] at hp
      rcases hp with rfl | rfl <;> simp
    · intro p hp
      simp only [List.mem_cons, List.not_mem_nil, or_false] at hp
      rcases hp with rfl | rfl | rfl | rfl | rfl | rfl | rfl | rfl <;> simp
    · decide
    · exact hcp
  have hCond : pyAttr (.node "style" (emitAttrs (stylePairs
      ⟨nm, lb, cp, cd, rws, cls, [], af, bf, wx, wr, ct⟩))
      (some ct) .nil) "cond" = cd := by
    apply pyAttr_emitAttrs_split "style" _
        [("name", nm), ("label", lb), ("copy", cp)]
        [("rows", rws), ("cols", cls), ("after", af), ("before", bf),
         ("with", wx), ("wrap", wr), ("content", some ct)]
        (some ct) .nil "cond" cd hpairs
    · intro p hp
      simp only [List.mem_cons, List.not_mem_nil, or_false] at hp
      rcases hp with rfl | rfl | rfl <;> simp
    · intro p hp
      simp only [List.mem_cons, List.not_mem_nil, or_false] at hp
      rcases hp with rfl | rfl | rfl | rfl | rfl | rfl | rfl <;> simp
    · decide
    · exact hcd
  have hRows : pyAttr (.node "style" (emitAttrs (stylePairs
      ⟨nm, lb, cp, cd, rws, cls, [], af, bf, wx, wr, ct⟩))
      (some ct) .nil) "rows" = rws := by
    apply pyAttr_emitAttrs_split "style" _
        [("name", nm), ("label", lb), ("copy", cp), ("cond", cd)]
        [("cols", cls), ("after", af), ("before", bf), ("with", wx),
         ("wrap", wr), ("content", some ct)]
        (some ct) .nil "rows" rws hpairs
    · intro p hp
      simp only [List.mem_cons, List.not_mem_nil, or_false] at hp
      rcases hp with rfl | rfl | rfl | rfl <;> simp
    · intro p hp
      simp only [List.mem_cons, List.not_mem_nil, or_false] at hp
      rcases hp with rfl | rfl | rfl | rfl | rfl | rfl <;> simp
    · decide
    · exact hrw
  have hCols : pyAttr (.node "style" (emitAttrs (stylePairs
      ⟨nm, lb, cp, cd, rws, cls, [], af, bf, wx, wr, ct⟩))
      (some ct) .nil) "cols" = cls := by
    apply pyAttr_emitAttrs_split "style" _
        [("name", nm), ("label", lb), ("copy", cp), ("cond", cd),
         ("rows", rws)]
        [("after", af), ("before", bf), ("with", wx), ("wrap", wr),
         ("content", some ct)]
        (some ct) .nil "cols" cls hpairs
    · intro p hp
      simp only [List.mem_cons, List.not_mem_nil, or_false] at hp
      rcases hp with rfl | rfl | rfl | rfl | rfl <;> simp
    · intro p hp
      simp only [List.mem_cons, List.not_mem_nil, or_false] at hp
      rcases hp with rfl | rfl | rfl | rfl | rfl <;> simp
    · decide
    · exact hcl
  have hAfter : pyAttr (.node "style" (emitAttrs (stylePairs
      ⟨nm, lb, cp, cd, rws, cls, [], af, bf, wx, wr, ct⟩))
      (some ct) .nil) "after" = af := by
    apply pyAttr_emitAttrs_split "style" _
        [("name", nm), ("label", lb), ("copy", cp), ("cond", cd),
         ("rows", rws), ("cols", cls)]
        [("before", bf), ("with", wx), ("wrap", wr), ("content", some ct)]
        (some ct) .nil "after" af hpairs
    · intro p hp
      simp only [List.mem_cons, List.not_mem_nil, or_false] at hp
      rcases hp with rfl | rfl | rfl | rfl | rfl | rfl <;> simp
    · intro p hp
      simp only [List.mem_cons, List.not_mem_nil, or_false] at hp
      rcases hp with rfl | rfl | rfl | rfl <;> simp
    · decide
    · exact haf
  have hBefore : pyAttr (.node "style" (emitAttrs (stylePairs
      ⟨nm, lb, cp, cd, rws, cls, [], af, bf, wx, wr, ct⟩))
      (some ct) .nil) "before" = bf := by
    apply pyAttr_emitAttrs_split "style" _
        [("name", nm), ("label", lb), ("copy", cp), ("cond", cd),
         ("rows", rws), ("cols", cls), ("after", af)]
        [("with", wx), ("wrap", wr), ("content", some ct)]
        (some ct) .nil "before" bf hpairs
    · intro p hp
      simp only [List.mem_cons, List.not_mem_nil, or_false] at hp
      rcases hp with rfl | rfl | rfl | rfl | rfl | rfl | rfl <;> simp
    · intro p hp
      simp only [List.mem_cons, List.not_mem_nil, or_false] at hp
      rcases hp with rfl | rfl | rfl <;> simp
    · decide
    · exact hbf
  have hWith : pyAttr (.node "style" (emitAttrs (stylePairs
      ⟨nm, lb, cp, cd, rws, cls, [], af, bf, wx, wr, ct⟩))
      (some ct) .nil) "with" = wx := by
    apply pyAttr_emitAttrs_split "style" _
        [("name", nm), ("label", lb), ("copy", cp), ("cond", cd),
         ("rows", rws), ("cols", cls), ("after", af), ("before", bf)]
        [("wrap", wr), ("content", some ct)]
        (some ct) .nil "with" wx hpairs
    · intro p hp
      simp only [List.mem_cons, List.not_mem_nil, or_false] at hp
      rcases hp with rfl | rfl | rfl | rfl | rfl | rfl | rfl | rfl <;> simp
    · intro p hp
      simp only [List.mem_cons, List.not_mem_nil, or_false] at hp
      rcases hp with rfl | rfl <;> simp
    · decide
    · exact hwx
  have hWrap : pyAttr (.node "style" (emitAttrs (stylePairs
      ⟨nm, lb, cp, cd, rws, cls, [], af, bf, wx, wr, ct⟩))
      (some ct) .nil) "wrap" = wr := by
    apply pyAttr_emitAttrs_split "style" _
        [("name", nm), ("label", lb), ("copy", cp), ("cond", cd),
         ("rows", rws), ("cols", cls), ("after", af), ("before", bf),
         ("with", wx)]
        [("content", some ct)]
        (some ct) .nil "wrap" wr hpairs
    · intro p hp
      simp only [List.mem_cons, List.not_mem_nil, or_false] at hp
      rcases hp with rfl | rfl | rfl | rfl | rfl | rfl | rfl | rfl
        | rfl <;> simp
    · intro p hp
      simp only [List.mem_cons, List.not_mem_nil, or_false] at hp
      rcases hp with rfl <;> simp
    · decide
    · exact hwr
  have hModeAttr : pyAttr (.node "style" (emitAttrs (stylePairs
      ⟨nm, lb, cp, cd, rws, cls, [], af, bf, wx, wr, ct⟩))
      (some ct) .nil) "mode" = none := by
    apply pyAttr_emitAttrs_absent
    · intro p hp
      rw [hpairs] at hp
      simp only [List.mem_cons, List.not_mem_nil, or_false] at hp
      rcases hp with rfl | rfl | rfl | rfl | rfl | rfl | rfl | rfl | rfl
        | rfl | rfl <;> simp
    · decide
  have hmset : parse_enum_set_mode (.node "style" (emitAttrs (stylePairs
      ⟨nm, lb, cp, cd, rws, cls, [], af, bf, wx, wr, ct⟩))
      (some ct) .nil) "mode" = .ok [] := by
    unfold parse_enum_set_mode
    rw [hModeAttr]
    rfl
  unfold parse_style
  rw [hmset]
  show (Except.ok (SElem.styleE (styleOfParts (.node "style"
      (emitAttrs (stylePairs ⟨nm, lb, cp, cd, rws, cls, [], af, bf, wx,
        wr, ct⟩)) (some ct) .nil) [] (pyStrip ct))) : Except String SElem)
    = .ok (.styleE ⟨nm, lb, cp, cd, rws, cls, [], af, bf, wx, wr, ct⟩)
  rw [hstrip]
  unfold styleOfParts
  rw [hName, hLabel, hCopy, hCond, hRows, hCols, hAfter, hBefore, hWith, hWrap]

mutual
/-- Decode after encode is the identity on good decoded values. -/
theorem decodeE_encodeE (defs : List (String × List Cell)) :
    ∀ (e : SElem), goodE e = true → decodeE defs (encodeE e) = .ok e
  | .rowE r, h => by
    have hr : goodCell r := by simpa [goodE] using h
    have hp : parse_cell (.node "row" (emitAttrs (cellPairs r))
        r.content .nil) = .ok r := parse_cell_cellToXml "row" r hr
    show (match parse_cell (.node "row" (emitAttrs (cellPairs r))
        r.content .nil) with
      | .error e => (Except.error e : Except String SElem)
      | .ok r2 => Except.ok (SElem.rowE r2)) = .ok (.rowE r)
    rw [hp]
  | .colE r, h => by
    have hr : goodCell r := by simpa [goodE] using h
    have hp : parse_cell (.node "col" (emitAttrs (cellPairs r))
        r.content .nil) = .ok r := parse_cell_cellToXml "col" r hr
    show (match parse_cell (.node "col" (emitAttrs (cellPairs r))
        r.content .nil) with
      | .error e => (Except.error e : Except String SElem)
      | .ok r2 => Except.ok (SElem.colE r2)) = .ok (.colE r)
    rw [hp]
  | .choiceE r, h => by
    have hr : goodCell r := by simpa [goodE] using h
    have hp : parse_cell (.node "choice" (emitAttrs (cellPairs r))
        r.content .nil) = .ok r := parse_cell_cellToXml "choice" r hr
    show (match parse_cell (.node "choice" (emitAttrs (cellPairs r))
        r.content .nil) with
      | .error e => (Except.error e : Except String SElem)
      | .ok r2 => Except.ok (SElem.choiceE r2)) = .ok (.choiceE r)
    rw [hp]
  | .noteE c, h => by
    have hc : pyStrip c = c := by
      have h' : pyStrip c = c ∧ c ≠ "" := by simpa [goodE] using h
      exact h'.1
    show (Except.ok (SElem.noteE (pyStrip c)) : Except String SElem)
      = .ok (.noteE c)
    rw [hc]
  | .htmlE l c, _ => rfl
  | .defineE l rs, h => by
    have hrs : ∀ r ∈ rs, goodCell r := by
      have h' : l.isSome = true ∧ ∀ r ∈ rs, goodCell r := by
        simpa [goodE, List.all_eq_true] using h
      exact h'.2
    have hrows := parse_rows_encoded defs rs hrs
    show (match parse_rows defs (XmlForest.ofList
        (rs.map (fun r => cellToXml "row" r))) with
      | .error e => (Except.error e : Except String SElem)
      | .ok rs2 => Except.ok (SElem.defineE (pyAttr (XmlTree.node "define"
          [("label", l)] none (XmlForest.ofList
            (rs.map (fun r => cellToXml "row" r)))) "label") rs2))
      = .ok (.defineE l rs)
    rw [hrows]
    rfl
  | .blockE l cs, h => by
    have hcs : goodF cs = true := by
      have h' : l.isSome = true ∧ goodF cs = true := by simpa [goodE] using h
      exact h'.2
    have hd := decodeF_encodeF defs cs hcs
    show (match decodeF defs (encodeF cs) with
      | .error e => (Except.error e : Except String SElem)
      | .ok cs2 => Except.ok (SElem.blockE (pyAttr (XmlTree.node "block"
          [("label", l)] none (encodeF cs)) "label") cs2))
      = .ok (.blockE l cs)
    rw [hd]
    rfl
  | .suspendE, _ => rfl
  | .execE c, h => by
    have hc : pyStrip c = c := by
      have h' : pyStrip c = c ∧ c ≠ "" := by simpa [goodE] using h
      exact h'.1
    show (Except.ok (SElem.execE (pyStrip c)) : Except String SElem)
      = .ok (.execE c)
    rw [hc]
  | .resE l c, _ => rfl
  | .styleE s, h => by
    have hst : goodStyle s = true := by simpa [goodE] using h
    show parse_style (.node "style" (emitAttrs (stylePairs s))
        (some s.content) .nil) = .ok (.styleE s)
    exact parse_style_styleXml s hst
  | .loopE l cs lrs, h => by
    have h' : (l.isSome = true ∧ goodF cs = true)
        ∧ ∀ x ∈ lrs, goodLooprow x = true := by
      simpa [goodE, List.all_eq_true] using h
    have hd := decodeLoopF_encode defs cs lrs h'.1.2 h'.2
    show (match decodeLoopF defs (XmlForest.append (encodeF cs)
        (lrs.map looprowToXml)) with
      | .error e => (Except.error e : Except String SElem)
      | .ok (cs2, lrs2) => Except.ok (SElem.loopE (pyAttr (XmlTree.node "loop"
          [("label", l)] none (XmlForest.append (encodeF cs)
            (lrs.map looprowToXml))) "label") cs2 lrs2))
      = .ok (.loopE l cs lrs)
    rw [hd]
    rfl
  | .quotaE l sh oq c, _ => rfl
  | .gotoE t c, h => by
    cases c with
    | none => rfl
    | some sc =>
      have hsc : ¬ sc = "" := by
        have h' : t.isSome = true ∧ ¬ sc = "" := by simpa [goodE] using h
        exact h'.2
      have hopt : optAttr "cond" (some sc) = [("cond", some sc)] := by
        simp [optAttr, hsc]
      show decodeE defs (.node "goto" (("target", t) :: optAttr "cond"
          (some sc)) none .nil) = .ok (.gotoE t (some sc))
      rw [hopt]
      rfl
  | .termE l c s, h => by simp [goodE] at h
  | .logicE l u, _ => rfl
  | .samplesourcesE d srcs, h => by
    have hsrc : srcs = [] := by
      have h' : d.isSome = true ∧ srcs = [] := by
        simpa [goodE, List.isEmpty_iff] using h
      exact h'.2
    subst hsrc
    rfl
  | .samplesourceE s, h => by simp [goodE] at h
  | .varE v, _ => rfl
  | .exitE e, h => by
    obtain ⟨ec, eu, ect⟩ := e
    cases eu with
    | none => rfl
    | some su =>
      have hsu : ¬ su = "" := by
        have h' : (ec.isSome = true ∧ ¬ su = "") ∧ ect ≠ some "" := by
          simpa [goodE, goodExit] using h
        exact h'.1.2
      have hopt : optAttr "url" (some su) = [("url", some su)] := by
        simp [optAttr, hsu]
      show decodeE defs (.node "exit" (("cond", ec) :: optAttr "url"
          (some su)) ect .nil) = .ok (.exitE ⟨ec, some su, ect⟩)
      rw [hopt]
      rfl
  | .conditionE l c ct, _ => rfl

theorem decodeF_encodeF (defs : List (String × List Cell)) :
    ∀ (es : SForest), goodF es = true → decodeF defs (encodeF es) = .ok es
  | .nil, _ => rfl
  | .cons e es, h => by
    have hpair := (Bool.and_eq_true _ _).mp (by simpa [goodF] using h)
    have htag := isParserTag_encodeE e hpair.1
    have he := decodeE_encodeE defs e hpair.1
    have hes := decodeF_encodeF defs es hpair.2
    simp only [encodeF, decodeF]
    rw [if_pos htag, he, hes]

theorem decodeLoopF_encode (defs : List (String × List Cell)) :
    ∀ (cs : SForest) (lrs : List Looprow), goodF cs = true →
      (∀ x ∈ lrs, goodLooprow x = true) →
      decodeLoopF defs (XmlForest.append (encodeF cs) (lrs.map looprowToXml))
        = .ok (cs, lrs)
  | .nil, lrs, _, hlrs => decodeLoopF_looprows defs lrs hlrs
  | .cons e es, lrs, h, hlrs => by
    have hpair := (Bool.and_eq_true _ _).mp (by simpa [goodF] using h)
    have htag := isParserTag_encodeE e hpair.1
    have he := decodeE_encodeE defs e hpair.1
    have hes := decodeLoopF_encode defs es lrs hpair.2 hlrs
    simp only [encodeF, XmlForest.append, decodeLoopF]
    rw [if_pos htag, he, hes]
end

/-! ## C1 — decode/encode round trip -/
/-- C1, counterexample.  Four decoder-accepted trees whose round trip
(decode, encode, serialize, re-decode) fails on the code: (1) a `row`
with an empty `label` attribute — the `ATTR_MAP` loop drops `""` values,
so re-decode yields `label = None`; (2) a `term` element —
`Terminate.to_xml_element` emits tag `"terminate"`, which has no
`_PARSERS` entry, so re-decode is a hard error; (3) a `style` with
`mode="before"` — the encoder's `mode` emission is commented out, so
re-decode loses the set; (4) a `samplesource` whose `title`/`invalid`/
`completed` are decoded from child tags but re-encoded as attributes, so
re-decode returns `None` for all three. -/
theorem C1_roundtrip_counterexample :
    (decodeE [] emptyLabelRowTree = .ok (.rowE emptyLabelRow) ∧
     reencode [] (.rowE emptyLabelRow) = .ok (.rowE droppedLabelRow) ∧
     SElem.rowE emptyLabelRow ≠ SElem.rowE droppedLabelRow) ∧
    (decodeE [] c1TermTree = .ok c1TermElem ∧
     reencode [] c1TermElem = .error "no parser for element") ∧
    (decodeE [] c1StyleTree = .ok (.styleE c1StyleIn) ∧
     reencode [] (.styleE c1StyleIn) = .ok (.styleE c1StyleOut) ∧
     c1StyleIn.mode = [.before] ∧ c1StyleOut.mode = [] ∧
     SElem.styleE c1StyleIn ≠ SElem.styleE c1StyleOut) ∧
    (decodeE [] c1SsTree = .ok (.samplesourceE c1SsIn) ∧
     reencode [] (.samplesourceE c1SsIn) = .ok (.samplesourceE c1SsOut) ∧
     c1SsIn.title = some "Welcome" ∧ c1SsOut.title = none ∧
     SElem.samplesourceE c1SsIn ≠ SElem.samplesourceE c1SsOut) := by
  refine ⟨⟨by decide, by decide, by decide⟩, ⟨by decide, by decide⟩,
    ⟨by decide, by decide, by decide, by decide, by decide⟩,
    ⟨by decide, by decide, by decide, by decide, by decide⟩⟩

/-- C1, amended.  Over the full `_PARSERS` registry decoder: for every
tree `x` the decoder accepts, decoding the bytes produced by encoding
`decode(x)` returns `decode(x)` exactly, provided the decoded value
satisfies `goodE` — no empty-string value in an emission-filtered
attribute field, no empty (or, for the stripping parsers,
whitespace-only) re-emitted text, every unconditionally-emitted
label-style field set (else `ET.tostring` raises on the stored `None`),
and no `Terminate`, no `Style` with a non-empty `mode`, and no
`SampleSource` anywhere in the value.  Each of these provisos is forced
by a failure exhibited in `C1_roundtrip_counterexample`. -/
theorem C1_roundtrip_amended (defs : List (String × List Cell))
    (x : XmlTree) (q : SElem)
    (hdec : decodeE defs x = .ok q) (hgood : goodE q = true) :
    reencode defs q = .ok q := by
  unfold reencode
  rw [toWire_encodeE q hgood]
  exact decodeE_encodeE defs q hgood

/-- C1 witness: the amended round trip at a concrete accepted tree
holding one element of every completable, round-trippable kind. -/
theorem C1_roundtrip_amended_witness :
    reencode [] fixtureElem = .ok fixtureElem :=
  C1_roundtrip_amended [] fixtureTree fixtureElem (by decide) (by decide)

/-- C2: decoding the spec's radio fixture does not succeed — `parse_row`
calls `_attr(row_el, "groups").split(",")` with a `None` default, so any
`<row>` without a `groups` attribute raises `AttributeError` (and even
with `groups` present, `RadioQuestion(...)` would raise `TypeError`, since
the mandatory `suspend` field is never passed).  The claim's expected
two-row decode therefore fails on the code. -/
theorem C2_radio_fixture_decode_raises :
    parse_radio [] radioFixture
      = .error "AttributeError: NoneType object has no attribute split" := by
  decide

/-- C3, counterexample.  Decoding a row collection that contains an
`<insert>` child does not produce a `DefineRef` placeholder: `parse_rows`
replaces the insert inline by the registered define's rows, and the
resulting question holds no `DefineRef` at all (`define_refs = []`),
so no back-reference is ever bound during decode. -/
theorem C3_insert_counterexample :
    parse_rows c3Defs c3Forest = .ok [c3Row1, c3RowA, c3RowB] ∧
    define_refs (mkQuestion "Q1"
      ([c3Row1, c3RowA, c3RowB].map RowEntry.cell)).rows = [] := by
  refine ⟨by decide, by decide⟩

theorem define_refs_bind (qlabel : String) :
    ∀ (rows : List RowEntry),
      define_refs (bind_define_refs qlabel rows)
        = (define_refs rows).map (fun d => d.add_parent qlabel) := by
  intro rows
  induction rows with
  | nil => rfl
  | cons e rest ih =>
    cases e with
    | cell r => simpa [bind_define_refs, define_refs] using ih
    | ref d => simpa [bind_define_refs, define_refs] using ih
    | group rs => simpa [bind_define_refs, define_refs] using ih

/-- C3, amended.  During decode an `<insert source=L>` child is resolved
inline: the registered define's rows are spliced into the row list (and a
missing registration is a hard error); no placeholder survives decode.
Separately, when a `Question` is constructed with `DefineRef` entries
already present in its rows, `__post_init__` binds each previously
unbound ref with a back-reference to that question. -/
theorem C3_insert_amended :
    (∀ (defs : List (String × List Cell)) (label : String)
       (drows : List Cell) (rest : XmlForest),
       (defs.find? (fun p => p.1 == label)).map (·.2) = some drows →
       parse_rows defs
           (.cons (.node "insert" [("source", some label)] none .nil) rest)
         = (parse_rows defs rest).map (fun rs => drows ++ rs)) ∧
    (∀ (defs : List (String × List Cell)) (label : String) (rest : XmlForest),
       (defs.find? (fun p => p.1 == label)).map (·.2) = none →
       parse_rows defs
           (.cons (.node "insert" [("source", some label)] none .nil) rest)
         = .error "insert source not found in defines") ∧
    (∀ (qlabel : String) (rows : List RowEntry),
       (∀ d ∈ define_refs rows, d.parent = none) →
       ∀ d ∈ define_refs (mkQuestion qlabel rows).rows,
         d.parent = some qlabel) := by
  refine ⟨?_, ?_, ?_⟩
  · intro defs label drows rest h
    simp only [parse_rows, XmlTree.tag_node]
    rw [if_neg (by decide), if_pos trivial]
    simp only [etGet, XmlTree.attrs, List.find?]
    simp only [show (("source" : String) == "source") = true from by decide]
    rw [h]
    cases hres : parse_rows defs rest <;> simp [hres, Except.map]
  · intro defs label rest h
    simp only [parse_rows, XmlTree.tag_node]
    rw [if_neg (by decide), if_pos trivial]
    simp only [etGet, XmlTree.attrs, List.find?]
    simp only [show (("source" : String) == "source") = true from by decide]
    rw [h]
  · intro qlabel rows hunbound d hd
    simp only [mkQuestion] at hd
    rw [define_refs_bind qlabel rows] at hd
    rcases List.mem_map.1 hd with ⟨d₀, hd₀, rfl⟩
    have := hunbound d₀ hd₀
    unfold DefineRef.add_parent
    rw [this]

/-- C3 witness: the amended statement at concrete inputs — an insert
inlines the registered rows, and construction binds an unbound ref. -/
theorem C3_insert_amended_witness :
    parse_rows c3Defs
        (.cons (.node "insert" [("source", some "X")] none .nil) .nil)
      = (parse_rows c3Defs .nil).map (fun rs => [c3RowA, c3RowB] ++ rs) ∧
    ∀ d ∈ define_refs (mkQuestion "QW"
        [RowEntry.ref { source := "BRANDS", parent := none }]).rows,
      d.parent = some "QW" := by
  constructor
  · exact C3_insert_amended.1 c3Defs "X" [c3RowA, c3RowB] .nil (by decide)
  · exact C3_insert_amended.2.2 "QW"
      [RowEntry.ref { source := "BRANDS", parent := none }] (by decide)

/-- C4, counterexample.  `resolve_inserts` does not preserve the
pre-resolution *row tuple*: it stores only the `DefineRef` tuple
(`historic_define_refs`), losing the ordinary row `r0`; and it does not
replace `rows` with the resolved content rows — it assigns
`tuple(insert_rows)`, a tuple of row *tuples*, dropping `r0` entirely. -/
theorem C4_resolve_counterexample :
    resolveInsertsQ c4UserDefines c4Question
      = .ok { label := "Q1", rows := [.group [c4Brand]],
              historic_define_refs := some [c4Ref] } ∧
    c4Question.rows = [.ref c4Ref, .cell c4Keep] ∧
    [RowEntry.group [c4Brand]] ≠ [RowEntry.cell c4Brand] ∧
    RowEntry.cell c4Keep ∉ [RowEntry.group [c4Brand]] := by
  refine ⟨by decide, by decide, by decide, by decide⟩

theorem collectInsertRows_spec (ud : List (String × Define)) :
    ∀ (refs : List DefineRef),
      (∀ d ∈ refs, isEditableLabel d.source = true →
        ((ud.find? (fun p => p.1 == d.source)).map (·.2)).isSome) →
      collectInsertRows ud refs = .ok (refs.filterMap (editableLookup ud)) := by
  intro refs
  induction refs with
  | nil => intro _; rfl
  | cons d ds ih =>
    intro h
    have hds := ih (fun x hx hex => h x (by simp [hx]) hex)
    unfold collectInsertRows
    by_cases hed : isEditableLabel d.source = true
    · rcases Option.isSome_iff_exists.1 (h d (by simp) hed) with ⟨df, hdf⟩
      rw [if_pos hed, hdf, hds]
      simp [editableLookup, hed, hdf]
    · rw [if_neg hed, hds]
      simp only [List.filterMap_cons]
      rw [show editableLookup ud d = none from by
        unfold editableLookup
        rw [if_neg hed]]

theorem define_refs_of_groups (ls : List (List Cell)) :
    define_refs (ls.map RowEntry.group) = [] := by
  induction ls with
  | nil => rfl
  | cons l rest ih => simpa [define_refs] using ih

/-- A question with no `DefineRef` entries left is untouched by
`resolve_inserts`. -/
theorem resolveInsertsQ_no_refs (ud : List (String × Define)) (q : QState)
    (h : define_refs q.rows = []) : resolveInsertsQ ud q = .ok q := by
  unfold resolveInsertsQ
  rw [h]
  rfl

/-- C4, amended.  For a not-yet-resolved question whose rows hold at least
one `DefineRef` on an editable label, with all such labels registered in
`user_defines`: resolution succeeds, captures the `DefineRef` tuple (not
the full row tuple) into `historic_define_refs` once, and replaces `rows`
by the tuple of the resolved defines' row-tuples (one `group` entry per
resolved ref, discarding the other row entries).  Resolving the result
again is a no-op: identical rows, historic tuple untouched. -/
theorem C4_resolve_amended (ud : List (String × Define)) (q : QState)
    (hfresh : q.historic_define_refs = none)
    (hsome : (define_refs q.rows).any (fun d => isEditableLabel d.source) = true)
    (hfound : ∀ d ∈ define_refs q.rows, isEditableLabel d.source = true →
      ((ud.find? (fun p => p.1 == d.source)).map (·.2)).isSome) :
    ∃ q', resolveInsertsQ ud q = .ok q' ∧
      q'.historic_define_refs = some (define_refs q.rows) ∧
      q'.rows = ((define_refs q.rows).filterMap (editableLookup ud)).map
        RowEntry.group ∧
      resolveInsertsQ ud q' = .ok q' := by
  have hcol := collectInsertRows_spec ud (define_refs q.rows) hfound
  have hne : ((define_refs q.rows).filterMap (editableLookup ud)).isEmpty
      = false := by
    rcases List.any_eq_true.1 hsome with ⟨d, hd, hed⟩
    rcases Option.isSome_iff_exists.1 (hfound d hd hed) with ⟨df, hdf⟩
    have hmem : df.rows ∈ (define_refs q.rows).filterMap (editableLookup ud) :=
      List.mem_filterMap.2 ⟨d, hd, by unfold editableLookup; rw [if_pos hed, hdf]; rfl⟩
    cases hl : (define_refs q.rows).filterMap (editableLookup ud) with
    | nil => rw [hl] at hmem; cases hmem
    | cons a as => rfl
  refine ⟨{ q with
      historic_define_refs := some (define_refs q.rows),
      rows := ((define_refs q.rows).filterMap (editableLookup ud)).map
        RowEntry.group }, ?_, rfl, rfl, ?_⟩
  · unfold resolveInsertsQ
    rw [hcol]
    simp only [hne, Bool.false_eq_true, if_false]
    rw [hfresh]
  · apply resolveInsertsQ_no_refs
    exact define_refs_of_groups _

/-- C4 witness: the amended statement at the concrete question. -/
theorem C4_resolve_amended_witness :
    ∃ q', resolveInsertsQ c4UserDefines c4Question = .ok q' ∧
      q'.historic_define_refs = some (define_refs c4Question.rows) ∧
      q'.rows = ((define_refs c4Question.rows).filterMap
        (editableLookup c4UserDefines)).map RowEntry.group ∧
      resolveInsertsQ c4UserDefines q' = .ok q' :=
  C4_resolve_amended c4UserDefines c4Question (by decide) (by decide)
    (by decide)

/-! ## C5 — reorder -/
theorem find?_none_of_not_mem_keys (pairs : List (String × SurvModule))
    (c : String) (h : c ∉ pairs.map Prod.fst) :
    pairs.find? (fun p => p.1 == c) = none := by
  induction pairs with
  | nil => rfl
  | cons p ps ih =>
    have hp : ¬ p.1 = c := by
      intro he; exact h (by simp [he])
    rw [List.find?_cons_of_neg _ (by simpa using hp)]
    exact ih (fun hx => h (by simp at hx ⊢; exact Or.inr hx))

theorem mem_keys_filter (pairs : List (String × SurvModule)) (k c : String)
    (hk : k ∈ pairs.map Prod.fst) (hne : k ≠ c) :
    k ∈ (pairs.filter (fun q => q.1 != c)).map Prod.fst := by
  induction pairs with
  | nil => simp at hk
  | cons p ps ih =>
    rcases List.mem_map.1 hk with ⟨q, hq, rfl⟩
    rcases List.mem_cons.1 hq with rfl | hq'
    · rw [List.filter_cons, if_pos (by simpa using hne)]
      simp
    · by_cases hpc : p.1 != c
      · rw [List.filter_cons, if_pos hpc]
        simp only [List.map_cons, List.mem_cons]
        exact Or.inr (ih (List.mem_map.2 ⟨q, hq', rfl⟩))
      · rw [List.filter_cons, if_neg hpc]
        exact ih (List.mem_map.2 ⟨q, hq', rfl⟩)

theorem dictPop_spec (pairs : List (String × SurvModule)) (c : String)
    (hnd : (pairs.map Prod.fst).Nodup) (hc : c ∈ pairs.map Prod.fst) :
    ∃ m rest, dictPop pairs c = some (m, rest) ∧ (c, m) ∈ pairs ∧
      rest.map Prod.fst = (pairs.map Prod.fst).erase c ∧
      (rest.map Prod.fst).Nodup ∧
      (pairs.map Prod.snd).Perm (m :: rest.map Prod.snd) := by
  induction pairs with
  | nil => simp at hc
  | cons p ps ih =>
    by_cases hpc : p.1 = c
    · have hps : ∀ q ∈ ps, q.1 ≠ c := by
        intro q hq he
        have : p.1 ∈ ps.map Prod.fst := by
          rw [hpc, ← he]; exact List.mem_map.2 ⟨q, hq, rfl⟩
        exact (List.nodup_cons.1 hnd).1 this
      have hfind : ((p :: ps).find? (fun q => q.1 == c)) = some p :=
        List.find?_cons_of_pos _ (by simpa using hpc)
      have hfilter : (p :: ps).filter (fun q => q.1 != c) = ps := by
        rw [List.filter_cons, if_neg (by simpa using hpc)]
        exact List.filter_eq_self.2 (fun q hq => by simpa using hps q hq)
      refine ⟨p.2, ps, ?_, ?_, ?_, ?_, ?_⟩
      · unfold dictPop; rw [hfind, hfilter]
      · exact List.mem_cons.2 (Or.inl (by rw [← hpc]))
      · simp only [List.map_cons, hpc, List.erase_cons_head]
      · exact (List.nodup_cons.1 hnd).2
      · simp
    · have hcps : c ∈ ps.map Prod.fst := by
        rcases List.mem_map.1 hc with ⟨q, hq, rfl⟩
        rcases List.mem_cons.1 hq with rfl | hq'
        · exact absurd rfl hpc
        · exact List.mem_map.2 ⟨q, hq', rfl⟩
      rcases ih (List.nodup_cons.1 hnd).2 hcps with
        ⟨m, rest', hpop', hmem', hkeys', hnd', hperm'⟩
      have hfindps : ∃ pr, ps.find? (fun q => q.1 == c) = some pr ∧
          pr.2 = m ∧ ps.filter (fun q => q.1 != c) = rest' := by
        unfold dictPop at hpop'
        cases hf : ps.find? (fun q => q.1 == c) with
        | none => rw [hf] at hpop'; cases hpop'
        | some pr =>
          rw [hf] at hpop'
          have hpair : (pr.2, ps.filter (fun q => q.1 != c)) = (m, rest') := by
            simpa using hpop'
          exact ⟨pr, rfl, congrArg Prod.fst hpair, congrArg Prod.snd hpair⟩
      rcases hfindps with ⟨pr, hf, hm, hfil⟩
      refine ⟨m, p :: rest', ?_, ?_, ?_, ?_, ?_⟩
      · unfold dictPop
        rw [List.find?_cons_of_neg _ (by simpa using hpc), hf,
            List.filter_cons, if_pos (by simpa using hpc), hfil]
        show some (pr.2, p :: rest') = some (m, p :: rest')
        rw [hm]
      · exact List.mem_cons.2 (Or.inr hmem')
      · simp only [List.map_cons, hkeys']
        rw [List.erase_cons_tail (show ¬ (p.1 == c) from by simpa using hpc)]
      · rw [List.map_cons, List.nodup_cons]
        refine ⟨?_, hnd'⟩
        rw [hkeys']
        intro hmem
        exact (List.nodup_cons.1 hnd).1 (List.mem_of_mem_erase hmem)
      · show ((p :: ps).map Prod.snd).Perm (m :: (p :: rest').map Prod.snd)
        simp only [List.map_cons]
        exact (hperm'.cons p.2).trans (List.Perm.swap m p.2 _)

theorem reorderLoop_cons_none (c : String) (cs : List String)
    (pairs : List (String × SurvModule)) (h : dictPop pairs c = none) :
    reorderLoop (c :: cs) pairs
      = .error ("Unknown project_code in reorder: \x27" ++ c ++ "\x27") := by
  unfold reorderLoop
  rw [h]

theorem reorderLoop_cons_some (c : String) (cs : List String)
    (pairs rest : List (String × SurvModule)) (m : SurvModule)
    (h : dictPop pairs c = some (m, rest)) :
    reorderLoop (c :: cs) pairs
      = match reorderLoop cs rest with
        | .error e => .error e
        | .ok (nl, rem) => .ok (m :: nl, rem) := by
  conv_lhs => unfold reorderLoop
  rw [h]

theorem reorderLoop_perm :
    ∀ (order : List String) (pairs : List (String × SurvModule)),
      (pairs.map Prod.fst).Nodup →
      (∀ p ∈ pairs, p.2.project_code = p.1) →
      order.Perm (pairs.map Prod.fst) →
      ∃ nl, reorderLoop order pairs = .ok (nl, []) ∧
        nl.map (·.project_code) = order ∧
        nl.Perm (pairs.map Prod.snd) := by
  intro order
  induction order with
  | nil =>
    intro pairs _ _ hperm
    have : pairs.map Prod.fst = [] := hperm.symm.eq_nil
    have hp : pairs = [] := by
      cases pairs with
      | nil => rfl
      | cons a l => simp at this
    subst hp
    exact ⟨[], rfl, rfl, List.Perm.refl _⟩
  | cons c cs ih =>
    intro pairs hnd hcode hperm
    have hc : c ∈ pairs.map Prod.fst := hperm.mem_iff.1 (by simp)
    rcases dictPop_spec pairs c hnd hc with ⟨m, rest, hpop, hmem, hkeys, hndr, hpv⟩
    have hsub : rest ⊆ pairs := by
      intro x hx
      unfold dictPop at hpop
      cases hf : pairs.find? (fun q => q.1 == c) with
      | none => rw [hf] at hpop; cases hpop
      | some pr =>
        rw [hf] at hpop
        have hr : pairs.filter (fun q => q.1 != c) = rest :=
          congrArg Prod.snd (Option.some.inj hpop)
        rw [← hr] at hx
        exact List.mem_of_mem_filter hx
    have hcodes : ∀ p ∈ rest, p.2.project_code = p.1 :=
      fun p hp => hcode p (hsub hp)
    have hpermr : cs.Perm (rest.map Prod.fst) := by
      have h3 := hperm.symm.erase c
      rw [List.erase_cons_head] at h3
      rw [hkeys]
      exact h3.symm
    rcases ih rest hndr hcodes hpermr with ⟨nl', hloop', hmap', hperm'⟩
    refine ⟨m :: nl', ?_, ?_, ?_⟩
    · rw [reorderLoop_cons_some c cs pairs rest m hpop, hloop']
    · have hmc : m.project_code = c := hcode (c, m) hmem
      simp [hmc, hmap']
    · exact (hperm'.cons m).trans hpv.symm

theorem reorderLoop_unknown :
    ∀ (order : List String) (pairs : List (String × SurvModule)) (c : String),
      c ∈ order → c ∉ pairs.map Prod.fst →
      ∃ e, reorderLoop order pairs = .error e := by
  intro order
  induction order with
  | nil => intro pairs c hc _; simp at hc
  | cons c₀ cs ih =>
    intro pairs c hc hcp
    cases hpop : dictPop pairs c₀ with
    | none => exact ⟨_, reorderLoop_cons_none c₀ cs pairs hpop⟩
    | some mr =>
      have hc₀ : c₀ ∈ pairs.map Prod.fst := by
        by_contra hno
        have hfn : pairs.find? (fun p => p.1 == c₀) = none :=
          find?_none_of_not_mem_keys pairs c₀ hno
        unfold dictPop at hpop
        rw [hfn] at hpop
        cases hpop
      have hne : c ≠ c₀ := fun he => hcp (he ▸ hc₀)
      have hcs : c ∈ cs := by
        rcases List.mem_cons.1 hc with rfl | h
        · exact absurd rfl hne
        · exact h
      have hrest : c ∉ mr.2.map Prod.fst := by
        intro hmem
        apply hcp
        unfold dictPop at hpop
        cases hf : pairs.find? (fun p => p.1 == c₀) with
        | none => rw [hf] at hpop; cases hpop
        | some pr =>
          rw [hf] at hpop
          have hr : pairs.filter (fun q => q.1 != c₀) = mr.2 :=
            congrArg Prod.snd (Option.some.inj hpop)
          rw [← hr] at hmem
          rcases List.mem_map.1 hmem with ⟨q, hq, rfl⟩
          exact List.mem_map.2 ⟨q, List.mem_of_mem_filter hq, rfl⟩
      rcases ih mr.2 c hcs hrest with ⟨e, he⟩
      refine ⟨e, ?_⟩
      rw [reorderLoop_cons_some c₀ cs pairs mr.2 mr.1 (by rw [hpop]), he]

theorem reorderLoop_missing :
    ∀ (order : List String) (pairs : List (String × SurvModule)) (k : String),
      k ∈ pairs.map Prod.fst → k ∉ order →
      ∀ nl rem, reorderLoop order pairs = .ok (nl, rem) →
        k ∈ rem.map Prod.fst := by
  intro order
  induction order with
  | nil =>
    intro pairs k hk _ nl rem hloop
    have heq : (Except.ok (([], pairs) :
        List SurvModule × List (String × SurvModule)) :
        Except String (List SurvModule × List (String × SurvModule)))
        = .ok (nl, rem) := hloop
    have : pairs = rem := congrArg Prod.snd (Except.ok.inj heq)
    rw [← this]
    exact hk
  | cons c cs ih =>
    intro pairs k hk hko nl rem hloop
    have hkc : k ≠ c := fun he => hko (he ▸ List.mem_cons_self c cs)
    cases hpop : dictPop pairs c with
    | none =>
      rw [reorderLoop_cons_none c cs pairs hpop] at hloop
      cases hloop
    | some mr =>
      rw [reorderLoop_cons_some c cs pairs mr.2 mr.1 (by rw [hpop])] at hloop
      have hkrest : k ∈ mr.2.map Prod.fst := by
        unfold dictPop at hpop
        cases hf : pairs.find? (fun p => p.1 == c) with
        | none => rw [hf] at hpop; cases hpop
        | some pr =>
          rw [hf] at hpop
          have hr : pairs.filter (fun q => q.1 != c) = mr.2 :=
            congrArg Prod.snd (Option.some.inj hpop)
          rw [← hr]
          exact mem_keys_filter pairs k c hk hkc
      cases hinner : reorderLoop cs mr.2 with
      | error e => rw [hinner] at hloop; cases hloop
      | ok p =>
        rw [hinner] at hloop
        have hrem : p.2 = rem := by
          have hp : (Except.ok (mr.1 :: p.1, p.2) :
              Except String (List SurvModule × List (String × SurvModule)))
              = .ok (nl, rem) := hloop
          exact congrArg Prod.snd (Except.ok.inj hp)
        rw [← hrem]
        exact ih mr.2 k hkrest (fun h => hko (List.mem_cons.2 (Or.inr h)))
          p.1 p.2 hinner

theorem foldl_dictInsert :
    ∀ (ms : List SurvModule) (d : List (String × SurvModule)),
      (∀ m ∈ ms, m.project_code ∉ d.map Prod.fst) →
      (ms.map (·.project_code)).Nodup →
      ms.foldl (fun d m => dictInsert d m.project_code m) d
        = d ++ ms.map (fun m => (m.project_code, m)) := by
  intro ms
  induction ms with
  | nil => intro d _ _; simp
  | cons m rest ih =>
    intro d hfresh hnd
    have hmem : m.project_code ∉ d.map Prod.fst := hfresh m (by simp)
    have hany : d.any (fun p => p.1 == m.project_code) = false := by
      rw [List.any_eq_false]
      intro p hp he
      exact hmem (List.mem_map.2 ⟨p, hp, by simpa using he⟩)
    have hins : dictInsert d m.project_code m = d ++ [(m.project_code, m)] := by
      unfold dictInsert
      rw [hany]
      simp
    have hfresh' : ∀ x ∈ rest,
        x.project_code ∉ (d ++ [(m.project_code, m)]).map Prod.fst := by
      intro x hx
      simp only [List.map_append, List.mem_append, List.map_cons, List.map_nil,
        List.mem_singleton, not_or]
      refine ⟨fun h => hfresh x (by simp [hx]) h, ?_⟩
      intro he
      have : m.project_code ∈ rest.map (·.project_code) :=
        List.mem_map.2 ⟨x, hx, he⟩
      exact (List.nodup_cons.1 (by simpa using hnd)).1 this
    have hnd' : (rest.map (·.project_code)).Nodup :=
      (List.nodup_cons.1 (by simpa using hnd)).2
    calc (m :: rest).foldl (fun d m => dictInsert d m.project_code m) d
        = rest.foldl (fun d m => dictInsert d m.project_code m)
            (dictInsert d m.project_code m) := by rw [List.foldl_cons]
      _ = (d ++ [(m.project_code, m)])
            ++ rest.map (fun m => (m.project_code, m)) := by
          rw [hins]; exact ih _ hfresh' hnd'
      _ = d ++ (m :: rest).map (fun m => (m.project_code, m)) := by simp

theorem code_to_mod_eq (modules : List SurvModule)
    (hnd : (modules.map (·.project_code)).Nodup) :
    code_to_mod modules = modules.map (fun m => (m.project_code, m)) := by
  unfold code_to_mod
  rw [foldl_dictInsert modules [] (by intro m _ h; simp at h) hnd]
  simp

theorem reorder_eq (modules : List SurvModule) (order : List String)
    (hguard : (order.length == 1 || modules.length == 1) = false) :
    reorder modules order
      = match reorderLoop order (code_to_mod modules) with
        | .error e => .error e
        | .ok (nl, rem) =>
          if rem.isEmpty then .ok nl
          else .error ("Reorder is missing module(s): "
            ++ String.intercalate ", " (rem.map (·.1))) := by
  unfold reorder
  rw [hguard, if_neg (by decide)]

/-- C5, counterexample.  With exactly one module, `reorder` returns
immediately: a sequence made of one unknown code raises nothing and the
module list is returned unchanged, contradicting the claim that unknown
codes raise "for every module count, including a Survey with exactly one
module". -/
theorem C5_reorder_counterexample :
    reorder [{ project_code := "module_cb", title := "CB" }] ["bogus"]
      = .ok [{ project_code := "module_cb", title := "CB" }] := by
  decide

/-- C5, amended.  Except in the unvalidated shortcut cases (a one-module
survey or a length-one code sequence, where `reorder` returns with no
check and no change), reorder is exact: an exact permutation of the
module codes succeeds and the resulting order matches the sequence
(same modules, reordered); a code not belonging to any module raises; a
module whose code is omitted raises.  Errors are raised before
`self.modules` is reassigned, so no partial reorder is committed. -/
theorem C5_reorder_amended (modules : List SurvModule) (order : List String)
    (hm : modules.length ≠ 1) (ho : order.length ≠ 1)
    (hnd : (modules.map (·.project_code)).Nodup) :
    (order.Perm (modules.map (·.project_code)) →
      ∃ nl, reorder modules order = .ok nl ∧
        nl.map (·.project_code) = order ∧ nl.Perm modules) ∧
    ((∃ c ∈ order, c ∉ modules.map (·.project_code)) →
      ∃ e, reorder modules order = .error e) ∧
    ((∃ m ∈ modules, m.project_code ∉ order) →
      ∃ e, reorder modules order = .error e) := by
  have hguard : (order.length == 1 || modules.length == 1) = false := by
    rw [beq_eq_false_iff_ne.2 ho, beq_eq_false_iff_ne.2 hm]
    rfl
  have heq := reorder_eq modules order hguard
  have hpairs := code_to_mod_eq modules hnd
  have hkeys : (code_to_mod modules).map Prod.fst
      = modules.map (·.project_code) := by
    rw [hpairs, List.map_map]
    rfl
  have hvals : (code_to_mod modules).map Prod.snd = modules := by
    rw [hpairs, List.map_map]
    have hfn : (Prod.snd ∘ fun (m : SurvModule) => (m.project_code, m)) = id := by
      funext m; rfl
    rw [hfn, List.map_id]
  have hcode : ∀ p ∈ code_to_mod modules, p.2.project_code = p.1 := by
    rw [hpairs]
    intro p hp
    rcases List.mem_map.1 hp with ⟨m, _, rfl⟩
    rfl
  refine ⟨?_, ?_, ?_⟩
  · intro hperm
    rcases reorderLoop_perm order (code_to_mod modules)
        (by rw [hkeys]; exact hnd) hcode (by rw [hkeys]; exact hperm) with
      ⟨nl, hloop, hmap, hp⟩
    refine ⟨nl, ?_, hmap, by rw [← hvals]; exact hp⟩
    rw [heq, hloop]
    rfl
  · intro hbad
    rcases hbad with ⟨c, hco, hcm⟩
    rcases reorderLoop_unknown order (code_to_mod modules) c hco
        (by rw [hkeys]; exact hcm) with ⟨e, he⟩
    refine ⟨e, ?_⟩
    rw [heq, he]
  · intro hmiss
    rcases hmiss with ⟨m, hmm, hmo⟩
    have hk : m.project_code ∈ (code_to_mod modules).map Prod.fst := by
      rw [hkeys]
      exact List.mem_map.2 ⟨m, hmm, rfl⟩
    cases hloop : reorderLoop order (code_to_mod modules) with
    | error e =>
      refine ⟨e, ?_⟩
      rw [heq, hloop]
    | ok p =>
      have hkrem := reorderLoop_missing order (code_to_mod modules)
        m.project_code hk hmo p.1 p.2 (by rw [hloop])
      have hne : p.2.isEmpty = false := by
        cases hrem : p.2 with
        | nil => rw [hrem] at hkrem; simp at hkrem
        | cons a l => rfl
      refine ⟨"Reorder is missing module(s): "
        ++ String.intercalate ", " (p.2.map (·.1)), ?_⟩
      rw [heq, hloop]
      show (if p.2.isEmpty = true then Except.ok p.1 else _) = _
      rw [hne, if_neg (by decide)]

/-- C5 witness: the amended statement at a concrete two-module survey. -/
theorem C5_reorder_amended_witness :
    ∃ nl, reorder [{ project_code := "module_cb", title := "CB" },
                   { project_code := "module_sm", title := "SM" }]
            ["module_sm", "module_cb"] = .ok nl ∧
      nl.map (·.project_code) = ["module_sm", "module_cb"] ∧
      nl.Perm [{ project_code := "module_cb", title := "CB" },
               { project_code := "module_sm", title := "SM" }] :=
  (C5_reorder_amended _ _ (by decide) (by decide) (by decide)).1
    (by decide)

/-! ## C6 — absence suppression -/
/-- C6, counterexample.  `Block.to_xml_element` stores
`attrs["label"] = self.label` unconditionally, so a `Block` with an unset
(`None`) label still emits a `label` attribute — mapped to `None`, which
`ET.tostring` cannot even serialize.  The claim that an unset field never
appears as a wire attribute is false for `Block`. -/
theorem C6_block_counterexample :
    (encodeE (.blockE none .nil)).attrs = [("label", none)] ∧
    ("label", (none : Option String)) ∈ (encodeE (.blockE none .nil)).attrs := by
  refine ⟨rfl, by decide⟩

/-- C6, amended.  The `ATTR_MAP`-driven encoder (`Element.to_xml_element`,
used by `Cell`/`Row`/`Col`/`Choice` and `Question`) suppresses unset
fields: every emitted attribute carries a present, non-empty value, and a
`None`-valued field (here: `label`, `cond`, `alt`, `randomize` unset, or
an empty `groups` set) contributes no attribute at all — never an empty
string and never the text `"None"`.  `Block.to_xml_element` is the
exception: it always emits the `label` key, even for an unset label. -/
theorem C6_absence_suppression_amended (tag : String) (r : Cell) :
    (∀ p ∈ (cellToXml tag r).attrs, ∃ s, p.2 = some s ∧ s ≠ "") ∧
    (r.label = none → ∀ p ∈ (cellToXml tag r).attrs, p.1 ≠ "label") ∧
    (r.cond = none → ∀ p ∈ (cellToXml tag r).attrs, p.1 ≠ "cond") ∧
    (r.alt = none → ∀ p ∈ (cellToXml tag r).attrs, p.1 ≠ "alt") ∧
    (r.randomize = none → ∀ p ∈ (cellToXml tag r).attrs, p.1 ≠ "randomize") ∧
    (r.groups = [] → ∀ p ∈ (cellToXml tag r).attrs, p.1 ≠ "groups") ∧
    (∀ (l : Option String) (cs : SForest),
      (encodeE (.blockE l cs)).attrs = [("label", l)]) := by
  have hmem : ∀ p ∈ (cellToXml tag r).attrs,
      ∃ s, p.2 = some s ∧ s ≠ "" ∧ (p.1, some s) ∈ cellPairs r := by
    intro p hp
    exact mem_emitAttrs (cellPairs r) p hp
  refine ⟨?_, ?_, ?_, ?_, ?_, ?_, ?_⟩
  · intro p hp
    rcases hmem p hp with ⟨s, h1, h2, _⟩
    exact ⟨s, h1, h2⟩
  · intro hnone p hp he
    rcases hmem p hp with ⟨s, _, _, hpair⟩
    rw [he] at hpair
    simp only [cellPairs, List.mem_cons, List.not_mem_nil, or_false,
      Prod.mk.injEq] at hpair
    rcases hpair with ⟨_, h⟩ | ⟨h, _⟩ | ⟨h, _⟩ | ⟨h, _⟩ | ⟨h, _⟩
    · rw [hnone] at h; cases h
    · exact absurd h.symm (by decide)
    · exact absurd h.symm (by decide)
    · exact absurd h.symm (by decide)
    · exact absurd h.symm (by decide)
  · intro hnone p hp he
    rcases hmem p hp with ⟨s, _, _, hpair⟩
    rw [he] at hpair
    simp only [cellPairs, List.mem_cons, List.not_mem_nil, or_false,
      Prod.mk.injEq] at hpair
    rcases hpair with ⟨h, _⟩ | ⟨h, _⟩ | ⟨h, _⟩ | ⟨_, h⟩ | ⟨h, _⟩
    · exact absurd h.symm (by decide)
    · exact absurd h.symm (by decide)
    · exact absurd h.symm (by decide)
    · rw [hnone] at h; cases h
    · exact absurd h.symm (by decide)
  · intro hnone p hp he
    rcases hmem p hp with ⟨s, _, _, hpair⟩
    rw [he] at hpair
    simp only [cellPairs, List.mem_cons, List.not_mem_nil, or_false,
      Prod.mk.injEq] at hpair
    rcases hpair with ⟨h, _⟩ | ⟨h, _⟩ | ⟨_, h⟩ | ⟨h, _⟩ | ⟨h, _⟩
    · exact absurd h.symm (by decide)
    · exact absurd h.symm (by decide)
    · rw [hnone] at h; cases h
    · exact absurd h.symm (by decide)
    · exact absurd h.symm (by decide)
  · intro hnone p hp he
    rcases hmem p hp with ⟨s, _, _, hpair⟩
    rw [he] at hpair
    simp only [cellPairs, List.mem_cons, List.not_mem_nil, or_false,
      Prod.mk.injEq] at hpair
    rcases hpair with ⟨h, _⟩ | ⟨_, h⟩ | ⟨h, _⟩ | ⟨h, _⟩ | ⟨h, _⟩
    · exact absurd h.symm (by decide)
    · rw [hnone] at h; cases h
    · exact absurd h.symm (by decide)
    · exact absurd h.symm (by decide)
    · exact absurd h.symm (by decide)
  · intro hnil p hp he
    rcases hmem p hp with ⟨s, _, _, hpair⟩
    rw [he] at hpair
    simp only [cellPairs, List.mem_cons, List.not_mem_nil, or_false,
      Prod.mk.injEq] at hpair
    rcases hpair with ⟨h, _⟩ | ⟨h, _⟩ | ⟨h, _⟩ | ⟨h, _⟩ | ⟨_, h⟩
    · exact absurd h.symm (by decide)
    · exact absurd h.symm (by decide)
    · exact absurd h.symm (by decide)
    · exact absurd h.symm (by decide)
    · rw [hnil] at h
      cases h
  · intro l cs
    rfl

/-- C6 witness: the amended statement evaluated at a cell with every
optional field unset. -/
theorem C6_absence_suppression_amended_witness :
    ∀ p ∈ (cellToXml "row"
      { label := none, content := none, cond := none, alt := none,
        randomize := none, groups := [] } : XmlTree).attrs,
      ∃ s, p.2 = some s ∧ s ≠ "" :=
  (C6_absence_suppression_amended "row"
    { label := none, content := none, cond := none, alt := none,
      randomize := none, groups := [] }).1

/-! ## C7 — CSV enum attribute parsing -/
theorem enumLoopWhere_ok (attr_name : String) :
    ∀ (ps : List String), (∀ p ∈ ps, (whereOfValue p).isSome) →
      enumLoopWhere attr_name ps = .ok (ps.filterMap whereOfValue) := by
  intro ps
  induction ps with
  | nil => intro _; rfl
  | cons p rest ih =>
    intro h
    rcases Option.isSome_iff_exists.1 (h p (by simp)) with ⟨m, hm⟩
    unfold enumLoopWhere
    rw [hm, ih (fun x hx => h x (by simp [hx]))]
    simp [List.filterMap_cons, hm]

theorem enumLoopWhere_err (attr_name : String) :
    ∀ (ps : List String) (p : String),
      ps.find? (fun x => (whereOfValue x).isNone) = some p →
      enumLoopWhere attr_name ps
        = .error ("Invalid value for " ++ attr_name ++ ": \x27" ++ p ++ "\x27") := by
  intro ps
  induction ps with
  | nil => intro p h; cases h
  | cons q rest ih =>
    intro p h
    by_cases hq : (whereOfValue q).isNone = true
    · rw [List.find?_cons_of_pos (p := fun x => (whereOfValue x).isNone) rest hq] at h
      have hqp : q = p := Option.some.inj h
      unfold enumLoopWhere
      rw [Option.isNone_iff_eq_none.1 hq, hqp]
    · rw [List.find?_cons_of_neg (p := fun x => (whereOfValue x).isNone) rest hq] at h
      cases hw : whereOfValue q with
      | none => exact absurd (by rw [hw]; rfl) hq
      | some m =>
        unfold enumLoopWhere
        rw [hw, ih p h]

/-- C7, counterexample.  `_parse_enum_set` does not retain unmatched
tokens verbatim: a CSV value containing the token `Banana` (not a `Where`
value) makes decoding fail with `ValueError`, rather than keeping the
token. -/
theorem C7_enum_counterexample :
    parse_enum_set_where
        (.node "radio" [("where", some "survey,Banana")] none .nil) "where"
      = .error "Invalid value for where: \x27Banana\x27" := by
  decide

/-- C7, amended.  `_parse_enum_set` splits the CSV attribute, strips each
token and drops blank ones, canonicalizes each remaining token against the
enum by exact (case-sensitive) value match, and raises `ValueError` at the
first unmatched token — never retaining it; an absent or empty attribute
yields the empty set, and the result is an (unordered) set of members.
The sibling helper `_csv_to_enum_set` instead matches name-or-value
exactly and silently discards unmatched tokens, as the concrete
evaluation shows (`Banana` dropped, `EXECUTE` matched by name). -/
theorem C7_enum_amended :
    (∀ (el : XmlTree) (a : String), pyAttr el a = none →
      parse_enum_set_where el a = .ok []) ∧
    (∀ (el : XmlTree) (a : String), pyAttr el a = some "" →
      parse_enum_set_where el a = .ok []) ∧
    (∀ (el : XmlTree) (a raw : String), pyAttr el a = some raw → raw ≠ "" →
      (∀ p ∈ enumTokens raw, (whereOfValue p).isSome) →
      parse_enum_set_where el a
        = .ok (mkWhereSet ((enumTokens raw).filterMap whereOfValue))) ∧
    (∀ (el : XmlTree) (a raw p : String), pyAttr el a = some raw → raw ≠ "" →
      (enumTokens raw).find? (fun x => (whereOfValue x).isNone) = some p →
      parse_enum_set_where el a
        = .error ("Invalid value for " ++ a ++ ": \x27" ++ p ++ "\x27")) ∧
    csv_to_enum_set_where (some "survey,Banana,EXECUTE")
      = [.execute, .survey] := by
  refine ⟨?_, ?_, ?_, ?_, by decide⟩
  · intro el a h
    unfold parse_enum_set_where
    rw [h]
    rfl
  · intro el a h
    unfold parse_enum_set_where
    rw [h]
    rfl
  · intro el a raw h hne hval
    unfold parse_enum_set_where
    rw [h]
    simp only [Option.getD_some]
    rw [if_neg hne, enumLoopWhere_ok a (enumTokens raw) hval]
  · intro el a raw p h hne hfind
    unfold parse_enum_set_where
    rw [h]
    simp only [Option.getD_some]
    rw [if_neg hne, enumLoopWhere_err a (enumTokens raw) p hfind]

/-- C7 witness: the amended statement at concrete attributes. -/
theorem C7_enum_amended_witness :
    parse_enum_set_where (.node "radio" [] none .nil) "where" = .ok [] ∧
    parse_enum_set_where
        (.node "radio" [("where", some "survey,execute")] none .nil) "where"
      = .ok (mkWhereSet ((enumTokens "survey,execute").filterMap whereOfValue)) := by
  constructor
  · exact C7_enum_amended.1 (.node "radio" [] none .nil) "where" (by decide)
  · exact C7_enum_amended.2.2.1
      (.node "radio" [("where", some "survey,execute")] none .nil)
      "where" "survey,execute" (by decide) (by decide) (by decide)

/-- C8: a rejected `set` records the error message and leaves the value
(and name) unchanged without raising; an accepted `set` stores the value
and clears the error; and `render` is oblivious to error slots, so
rendering proceeds regardless of recorded errors. -/
theorem C8_editable_set (t : EditableText) (f : String → Bool) (v : String)
    (hf : t.validator = some f) :
    (f v = false →
      (t.set v).value = t.value ∧ (t.set v).name = t.name ∧
      (t.set v).error
        = some ("Invalid value for \x27" ++ t.name ++ "\x27.")) ∧
    (f v = true → (t.set v).value = v ∧ (t.set v).error = none) ∧
    (∀ (tpl : EditableTemplate) (err : Option String),
      render { tpl with tokens := tpl.tokens.map (withError err) }
        = render tpl) := by
  refine ⟨?_, ?_, ?_⟩
  · intro hrej
    have hset : t.set v
        = { t with error := some ("Invalid value for \x27" ++ t.name ++ "\x27.") } := by
      unfold EditableText.set
      rw [hf]
      show (if ¬ f v = true then
          ({ name := t.name, value := t.value, context := t.context,
             validator := some f,
             error := some ("Invalid value for \x27" ++ t.name ++ "\x27.") }
            : EditableText)
        else { name := t.name, value := v, context := t.context,
               validator := some f, error := none }) = _
      rw [if_pos (by simp [hrej]), ← hf]
    rw [hset]
    exact ⟨rfl, rfl, rfl⟩
  · intro hacc
    have hset : t.set v = { t with value := v, error := none } := by
      unfold EditableText.set
      rw [hf]
      show (if ¬ f v = true then
          ({ name := t.name, value := t.value, context := t.context,
             validator := some f,
             error := some ("Invalid value for \x27" ++ t.name ++ "\x27.") }
            : EditableText)
        else { name := t.name, value := v, context := t.context,
               validator := some f, error := none }) = _
      rw [if_neg (by simp [hacc]), ← hf]
    rw [hset]
    exact ⟨rfl, rfl⟩
  · intro tpl err
    unfold render
    simp only [List.map_map]
    congr 1
    apply List.map_congr_left
    intro tok _
    cases tok with
    | fixed s => rfl
    | editable t => rfl

/-- C8 witness: a concrete token with a length-two validator. -/
theorem C8_editable_set_witness :
    (EditableText.set
        { name := "age", value := "20",
          validator := some (fun s => s.length ≤ 2) } "999").value = "20" ∧
    (EditableText.set
        { name := "age", value := "20",
          validator := some (fun s => s.length ≤ 2) } "999").error
      = some "Invalid value for \x27age\x27." ∧
    (EditableText.set
        { name := "age", value := "20",
          validator := some (fun s => s.length ≤ 2) } "21").value = "21" := by
  have h := C8_editable_set
    { name := "age", value := "20", validator := some (fun s => s.length ≤ 2) }
    (fun s => s.length ≤ 2) "999" rfl
  have h2 := C8_editable_set
    { name := "age", value := "20", validator := some (fun s => s.length ≤ 2) }
    (fun s => s.length ≤ 2) "21" rfl
  refine ⟨(h.1 (by decide)).1, ?_, (h2.2.1 (by decide)).1⟩
  have := (h.1 (by decide)).2.2
  simpa using this

/-! ## C9 — template rendering -/
/-- C9: `EditableTemplate("Which \x7b\x7bgender\x7d\x7d do you
\x7b\x7bidentify as\x7d\x7d?")` with `\x7b\x7b`/`\x7d\x7d` delimiters
splits into the two editable names; after `set_value("gender","genders")`
with `identify as` left unset, `render()` substitutes the set value and
re-emits the unset token's `start+name+end` form, yielding exactly
`"Which genders do you \x7b\x7bidentify as\x7d\x7d?"`. -/
theorem C9_render_scenario :
    editableNames (mkEditableTemplate
        "Which \x7b\x7bgender\x7d\x7d do you \x7b\x7bidentify as\x7d\x7d?"
        "\x7b\x7b" "\x7d\x7d").tokens = ["gender", "identify as"] ∧
    render (set_value
        (mkEditableTemplate
          "Which \x7b\x7bgender\x7d\x7d do you \x7b\x7bidentify as\x7d\x7d?"
          "\x7b\x7b" "\x7d\x7d")
        "gender" "genders")
      = "Which genders do you \x7b\x7bidentify as\x7d\x7d?" := by
  refine ⟨by decide, by decide⟩

/-! ## C10 — set_value bypasses validation -/
theorem setFirstEditableRev_spec (name value : String) :
    ∀ (l : List Token), name ∈ editableNames l →
      ∃ l₁ t l₂, l = l₁ ++ .editable t :: l₂ ∧ t.name = name ∧
        (∀ t', Token.editable t' ∈ l₁ → t'.name ≠ name) ∧
        setFirstEditableRev name value l
          = l₁ ++ .editable { t with value := value } :: l₂ := by
  intro l
  induction l with
  | nil => intro h; simp [editableNames] at h
  | cons tok ts ih =>
    intro h
    cases tok with
    | fixed s =>
      have hts : name ∈ editableNames ts := by
        have hcons : editableNames (Token.fixed s :: ts) = editableNames ts := rfl
        rw [hcons] at h
        exact h
      rcases ih hts with ⟨l₁, t, l₂, heq, hname, hfree, hgo⟩
      refine ⟨.fixed s :: l₁, t, l₂, by rw [heq]; rfl, hname, ?_, ?_⟩
      · intro t' ht'
        rcases List.mem_cons.1 ht' with hcon | hmem
        · cases hcon
        · exact hfree t' hmem
      · show Token.fixed s :: setFirstEditableRev name value ts = _
        rw [hgo]
        rfl
    | editable t =>
      by_cases hn : t.name = name
      · refine ⟨[], t, ts, by simp, hn, by intro t' ht'; simp at ht', ?_⟩
        show (if t.name == name then
            Token.editable { t with value := value } :: ts
          else Token.editable t :: setFirstEditableRev name value ts) = _
        rw [if_pos (by simpa using hn)]
        rfl
      · have hts : name ∈ editableNames ts := by
          have hcons : editableNames (Token.editable t :: ts)
              = t.name :: editableNames ts := rfl
          rw [hcons] at h
          rcases List.mem_cons.1 h with hcon | hmem
          · exact absurd hcon.symm hn
          · exact hmem
        rcases ih hts with ⟨l₁, t₀, l₂, heq, hname, hfree, hgo⟩
        refine ⟨.editable t :: l₁, t₀, l₂, by rw [heq]; rfl, hname, ?_, ?_⟩
        · intro t' ht'
          rcases List.mem_cons.1 ht' with hcon | hmem
          · rw [show t' = t from by injection hcon]
            exact hn
          · exact hfree t' hmem
        · show (if t.name == name then
              Token.editable { t with value := value } :: ts
            else Token.editable t :: setFirstEditableRev name value ts) = _
          rw [if_neg (by simpa using hn), hgo]
          rfl

theorem editableNames_reverse (l : List Token) :
    editableNames l.reverse = (editableNames l).reverse := by
  unfold editableNames
  rw [List.filterMap_reverse]

/-- C10: `set_value(name, value)` writes the value field of the *last*
editable token named `name` directly — validator untouched and never
invoked, error slot untouched, all other tokens and fields unchanged —
and is a silent no-op when no editable token carries the name. -/
theorem C10_set_value_direct (tpl : EditableTemplate) (name v : String) :
    ((editableNames tpl.tokens).contains name = false →
      set_value tpl name v = tpl) ∧
    ((editableNames tpl.tokens).contains name = true →
      ∃ pre t post,
        tpl.tokens = pre ++ .editable t :: post ∧
        t.name = name ∧
        (∀ t', Token.editable t' ∈ post → t'.name ≠ name) ∧
        (set_value tpl name v).tokens
          = pre ++ .editable { t with value := v } :: post ∧
        (set_value tpl name v).raw_template = tpl.raw_template ∧
        (set_value tpl name v).start = tpl.start ∧
        (set_value tpl name v).end_ = tpl.end_) := by
  constructor
  · intro h
    unfold set_value
    rw [h, if_neg (by decide)]
  · intro h
    have hmem : name ∈ editableNames tpl.tokens := by
      have := List.elem_iff.1 h
      exact this
    have hmemr : name ∈ editableNames tpl.tokens.reverse := by
      rw [editableNames_reverse]
      exact List.mem_reverse.2 hmem
    rcases setFirstEditableRev_spec name v tpl.tokens.reverse hmemr with
      ⟨l₁, t, l₂, heq, hname, hfree, hgo⟩
    have htokens : tpl.tokens = l₂.reverse ++ .editable t :: l₁.reverse := by
      have := congrArg List.reverse heq
      rw [List.reverse_reverse] at this
      rw [this]
      simp
    have hupd : updateLastEditable name v tpl.tokens
        = l₂.reverse ++ .editable { t with value := v } :: l₁.reverse := by
      unfold updateLastEditable
      rw [hgo]
      simp
    refine ⟨l₂.reverse, t, l₁.reverse, htokens, hname, ?_, ?_, ?_, ?_, ?_⟩
    · intro t' ht'
      exact hfree t' (List.mem_reverse.1 ht')
    · unfold set_value
      rw [h, if_pos rfl]
      exact hupd
    · unfold set_value
      rw [h, if_pos rfl]
    · unfold set_value
      rw [h, if_pos rfl]
    · unfold set_value
      rw [h, if_pos rfl]

/-- C10 witness: a template whose `brand` token has an always-rejecting
validator still gets its value written by `set_value`, with the error
slot untouched; the token replaced is the last one with the name. -/
theorem C10_set_value_direct_witness :
    ∃ pre t post,
      ({ raw_template := "x", start := "\x7b", end_ := "\x7d",
         tokens := [Token.editable
           { name := "brand", value := "", context := none,
             validator := some (fun _ => false), error := none }] }
        : EditableTemplate).tokens = pre ++ .editable t :: post ∧
      t.name = "brand" ∧
      (∀ t', Token.editable t' ∈ post → t'.name ≠ "brand") ∧
      (set_value
        { raw_template := "x", start := "\x7b", end_ := "\x7d",
          tokens := [Token.editable
            { name := "brand", value := "", context := none,
              validator := some (fun _ => false), error := none }] }
        "brand" "Acme").tokens
        = pre ++ .editable { t with value := "Acme" } :: post ∧
      (set_value
        { raw_template := "x", start := "\x7b", end_ := "\x7d",
          tokens := [Token.editable
            { name := "brand", value := "", context := none,
              validator := some (fun _ => false), error := none }] }
        "brand" "Acme").raw_template = "x" ∧
      (set_value
        { raw_template := "x", start := "\x7b", end_ := "\x7d",
          tokens := [Token.editable
            { name := "brand", value := "", context := none,
              validator := some (fun _ => false), error := none }] }
        "brand" "Acme").start = "\x7b" ∧
      (set_value
        { raw_template := "x", start := "\x7b", end_ := "\x7d",
          tokens := [Token.editable
            { name := "brand", value := "", context := none,
              validator := some (fun _ => false), error := none }] }
        "brand" "Acme").end_ = "\x7d" :=
  (C10_set_value_direct
    { raw_template := "x", start := "\x7b", end_ := "\x7d",
      tokens := [Token.editable
        { name := "brand", value := "", context := none,
          validator := some (fun _ => false), error := none }] }
    "brand" "Acme").2 rfl
